import Mathlib

/-!
Verification of the appeer publication-metadata core: date normalization
(appeer/parse/parsers/date_utils.py), filter compilation
(appeer/db/tables/pub.py), search ordering (appeer/pub/researcher.py) and
report aggregation (appeer/pub/analyzer.py), as a shallow embedding.

Python values that flow through the checked code are modelled by `PyVal`;
Python exceptions by `Except PyErr`.  Machine-level caveats of the model:
Python's `int()` also accepts non-ASCII decimal digits and Unicode
whitespace, which never occur in this repository's inputs; only the ASCII
forms are modelled.
-/

/-- A dynamic Python value, as far as the embedded code needs: strings,
integers, None and (nested) lists. -/
inductive PyVal where
  | vstr (s : String)
  | vint (n : Int)
  | vnone
  | vlist (xs : List PyVal)

/-- A Python exception, tagged by class.  All date/filter validation errors
in the source are ValueError; numpy type failures are TypeError. -/
inductive PyErr where
  | valueError (msg : String)
  | typeError (msg : String)
deriving DecidableEq, Repr

/-- ASCII decimal digit test, as used by Python int parsing. -/
def isDigitCh (c : Char) : Bool := 48 ≤ c.toNat ∧ c.toNat ≤ 57

/-- Numeric value of an ASCII digit character. -/
def dVal (c : Char) : Nat := c.toNat - 48

/-- The ASCII digit character for a value 0-9 (10-way match so that all
lemmas about it are by plain case analysis). -/
def dChar (n : Nat) : Char :=
  match n with
  | 0 => '0' | 1 => '1' | 2 => '2' | 3 => '3' | 4 => '4'
  | 5 => '5' | 6 => '6' | 7 => '7' | 8 => '8' | _ => '9'

/-- Value of a digit string read left to right (base 10). -/
def digitsVal (l : List Char) : Nat := l.foldl (fun a c => 10 * a + dVal c) 0

/-- Fuel-driven decimal printer (fuel keeps it structural so the kernel can
evaluate it). -/
def natToDigitsAux : Nat → Nat → List Char
  | 0, _ => []
  | f + 1, n => if n < 10 then [dChar n] else natToDigitsAux f (n / 10) ++ [dChar (n % 10)]

/-- Decimal digits of a natural number, no leading zeros; models Python
str() on a non-negative int. -/
def natToDigits (n : Nat) : List Char := natToDigitsAux (n + 1) n

/-- Models Python str() on an int. -/
def intToChars (i : Int) : List Char :=
  if i < 0 then '-' :: natToDigits i.natAbs else natToDigits i.toNat

/-- Left-pad with ASCII zeros to length k (no-op when already long enough);
models the year padding loop in normalize_date_2iso. -/
def padZeros (k : Nat) (l : List Char) : List Char :=
  List.replicate (k - l.length) '0' ++ l

/-- ASCII whitespace stripped by Python int(). -/
def isPyWs (c : Char) : Bool :=
  c.toNat = 32 ∨ c.toNat = 9 ∨ c.toNat = 10 ∨ c.toNat = 13 ∨ c.toNat = 11 ∨ c.toNat = 12

/-- Digit run with optional single underscores between digits, continuing a
number whose leading digits evaluate to acc; models the tail of Python
int() literal parsing (PEP 515 underscores included). -/
def digitsURest (acc : Nat) : List Char → Option Nat
  | [] => some acc
  | c :: rest =>
    if isDigitCh c then digitsURest (10 * acc + dVal c) rest
    else if c = '_' then
      match rest with
      | [] => none
      | c2 :: rest2 => if isDigitCh c2 then digitsURest (10 * acc + dVal c2) rest2 else none
    else none

/-- Unsigned digit-run part of Python int(): at least one digit, underscores
only between digits. -/
def pyIntDigitsPart : List Char → Option Nat
  | [] => none
  | d :: r2 => if isDigitCh d then digitsURest (dVal d) r2 else none

/-- Sign-and-digit-run part of Python int(), applied after whitespace
stripping. -/
def pyIntCore : List Char → Option Int
  | [] => none
  | c :: rest =>
    if c = '+' then (pyIntDigitsPart rest).map Int.ofNat
    else if c = '-' then (pyIntDigitsPart rest).map (fun n => -(n : Int))
    else if isDigitCh c then (digitsURest (dVal c) rest).map Int.ofNat
    else none

/-- Python int() on a character list: strip whitespace on both ends, then an
optional sign and a digit run (underscores allowed between digits); None
models ValueError. -/
def pyIntOfChars (l : List Char) : Option Int :=
  pyIntCore ((l.dropWhile isPyWs).reverse.dropWhile isPyWs |>.reverse)

/-- Python str.split(sep) for a one-character separator: splits at every
occurrence, keeping empty segments; the result is never empty. -/
def pySplitChar (sep : Char) : List Char → List (List Char)
  | [] => [[]]
  | c :: rest =>
    match pySplitChar sep rest with
    | [] => [[]]
    | h :: t => if c = sep then [] :: h :: t else (c :: h) :: t

/-- Leap year rule shared by Python datetime.date / datetime.datetime. -/
def isLeapYear (y : Nat) : Bool := y % 4 = 0 ∧ (y % 100 ≠ 0 ∨ y % 400 = 0)

/-- Days in a month, as validated by Python datetime constructors. -/
def daysInMonth (y m : Nat) : Nat :=
  if m = 2 then (if isLeapYear y then 29 else 28)
  else if m = 4 ∨ m = 6 ∨ m = 9 ∨ m = 11 then 30
  else 31

/-- Python datetime constructor validity: year 1-9999, real calendar date. -/
def pyDatetimeValid (y m d : Int) : Bool :=
  1 ≤ y ∧ y ≤ 9999 ∧ 1 ≤ m ∧ m ≤ 12 ∧ 1 ≤ d ∧
    0 < d.toNat ∧ d.toNat ≤ daysInMonth y.toNat m.toNat

deriving instance DecidableEq for Except

/-! ## normalize_date_2iso (date_utils.py lines 210-310) -/

/-- Error message raised when the year segment fails int(). -/
def yearErrMsg : String :=
  "Invalid year passed; must be in YYYY, MM-YYYY or DD-MM-YYYY format; the year must be positive."

/-- Error message raised for a non-integer month/day segment and for more
than three segments. -/
def formatErrMsg : String :=
  "Invalid date passed; must be in YYYY, YYYY-MM or YYYY-MM-DD format."

/-- Year segment handling of normalize_date_2iso: int() it, str() it, left-pad
with zeros to at least four characters. -/
def yearStrOf (seg : List Char) : Except PyErr (List Char) :=
  match pyIntOfChars seg with
  | none => .error (.valueError yearErrMsg)
  | some year => .ok (padZeros 4 (intToChars year))

/-- Month segment handling: int() it, require 1-12, str() it, pad a single
digit with a leading zero. -/
def monthStrOf (seg : List Char) : Except PyErr (List Char) :=
  match pyIntOfChars seg with
  | none => .error (.valueError formatErrMsg)
  | some month =>
    if 1 ≤ month ∧ month ≤ 12 then
      .ok (if (intToChars month).length = 1 then '0' :: intToChars month else intToChars month)
    else .error (.valueError "Invalid month passed; must be between 1 and 12")

/-- Day segment handling: int() it, require 1-31 (February 31 passes here and
is only rejected by the final calendar check), pad to two digits. -/
def dayStrOf (seg : List Char) : Except PyErr (List Char) :=
  match pyIntOfChars seg with
  | none => .error (.valueError formatErrMsg)
  | some day =>
    if 1 ≤ day ∧ day ≤ 31 then
      .ok (if (intToChars day).length = 1 then '0' :: intToChars day else intToChars day)
    else .error (.valueError "Invalid day passed; must be between 1 and 31.")

/-- Final validity gate of normalize_date_2iso: re-split the assembled string
and feed the pieces to datetime.datetime; int() or constructor failure raises
the calendar-invalid error.  (The unpack branch is unreachable: the assembled
components never contain a hyphen.) -/
def normFinalCheck (cs : List Char) : Except PyErr (List Char) :=
  match pySplitChar '-' cs with
  | [a, b, c] =>
    match pyIntOfChars a, pyIntOfChars b, pyIntOfChars c with
    | some y, some m, some d =>
      if pyDatetimeValid y m d then .ok cs
      else .error (.valueError "Inputted date is invalid.")
    | _, _, _ => .error (.valueError "Inputted date is invalid.")
  | _ => .error (.valueError "not enough values to unpack (expected 3)")

/-- Arity-specific bodies of normalize_date_2iso, one per segment count,
mirroring the Python statement order (year first, then month when present,
then day when present, then assembly and the final calendar check; more than
three segments raises the format error only after the month and day range
checks have run). -/
def normISO1 (s0 : List Char) : Except PyErr (List Char) :=
  match yearStrOf s0 with
  | .error e => .error e
  | .ok y => normFinalCheck (y ++ '-' :: '0' :: '1' :: '-' :: '0' :: '1' :: [])

/-- Two-segment body of normalize_date_2iso (YYYY-MM): day defaults to 01. -/
def normISO2 (s0 s1 : List Char) : Except PyErr (List Char) :=
  match yearStrOf s0 with
  | .error e => .error e
  | .ok y =>
    match monthStrOf s1 with
    | .error e => .error e
    | .ok m => normFinalCheck (y ++ '-' :: (m ++ '-' :: '0' :: '1' :: []))

/-- Three-segment body of normalize_date_2iso (YYYY-MM-DD). -/
def normISO3 (s0 s1 s2 : List Char) : Except PyErr (List Char) :=
  match yearStrOf s0 with
  | .error e => .error e
  | .ok y =>
    match monthStrOf s1 with
    | .error e => .error e
    | .ok m =>
      match dayStrOf s2 with
      | .error e => .error e
      | .ok d => normFinalCheck (y ++ '-' :: (m ++ '-' :: d))

/-- Body of normalize_date_2iso for more than three segments: the year,
month and day checks run (and may raise first), then the segment-count
match raises the format error. -/
def normISO4plus (s0 s1 s2 : List Char) : Except PyErr (List Char) :=
  match yearStrOf s0 with
  | .error e => .error e
  | .ok _ =>
    match monthStrOf s1 with
    | .error e => .error e
    | .ok _ =>
      match dayStrOf s2 with
      | .error e => .error e
      | .ok _ => .error (.valueError formatErrMsg)

/-- Dispatch of normalize_date_2iso on the hyphen-split segment list. -/
def normISOSegs : List (List Char) → Except PyErr (List Char)
  | [] => .error (.valueError "unreachable: str.split never returns an empty list")
  | [s0] => normISO1 s0
  | [s0, s1] => normISO2 s0 s1
  | [s0, s1, s2] => normISO3 s0 s1 s2
  | s0 :: s1 :: s2 :: _ :: _ => normISO4plus s0 s1 s2

/-- Core of normalize_date_2iso on the character list of a string input:
split on hyphens and dispatch on the segment count. -/
def normISO (cs : List Char) : Except PyErr (List Char) :=
  normISOSegs (pySplitChar '-' cs)

/-- normalize_date_2iso: transforms YYYY, YYYY-MM or YYYY-MM-DD into
YYYY-MM-DD, raising ValueError on anything invalid. -/
def normalize_date_2iso (date : PyVal) : Except PyErr String :=
  match date with
  | .vstr s =>
    match normISO s.data with
    | .ok cs => .ok (String.mk cs)
    | .error e => .error e
  | _ => .error (.valueError "Invalid date passed; must be a string.")

/-- The canonical character-level shape of every successful
normalize_date_2iso output: zero-padded year (at least four digits), two-digit
month and day. -/
def isoChars (y m d : Nat) : List Char :=
  padZeros 4 (natToDigits y) ++
    '-' :: (padZeros 2 (natToDigits m) ++ '-' :: padZeros 2 (natToDigits d))

/-- Modelled from the spec: appeer.general.utils.is_list_of_str is not under
src/; per the spec a list-type criterion accepts "one or more exact strings"
with "a scalar string treated as a single-element list" and "any non-string
element fails", so the check accepts a plain string or a list whose elements
are all strings. -/
def is_list_of_str : PyVal → Bool
  | .vstr _ => true
  | .vlist xs => xs.all fun v => match v with | .vstr _ => true | _ => false
  | _ => false

/-- Python datetime.date.fromisoformat for the canonical dates this code
produces and consumes: exactly YYYY-MM-DD with ASCII digits, a real calendar
date, year at least 1 (3.11+ accepts further ISO-8601 forms, which never
arise here).  Returns the (year, month, day) triple of the date object. -/
def fromisoChars : List Char → Option (Nat × Nat × Nat)
  | [y1, y2, y3, y4, h1, m1, m2, h2, d1, d2] =>
    if h1 = '-' ∧ h2 = '-' ∧ isDigitCh y1 ∧ isDigitCh y2 ∧ isDigitCh y3 ∧ isDigitCh y4
        ∧ isDigitCh m1 ∧ isDigitCh m2 ∧ isDigitCh d1 ∧ isDigitCh d2 then
      if 1 ≤ digitsVal [y1, y2, y3, y4] ∧ 1 ≤ digitsVal [m1, m2] ∧ digitsVal [m1, m2] ≤ 12
          ∧ 1 ≤ digitsVal [d1, d2]
          ∧ digitsVal [d1, d2] ≤ daysInMonth (digitsVal [y1, y2, y3, y4]) (digitsVal [m1, m2]) then
        some (digitsVal [y1, y2, y3, y4], digitsVal [m1, m2], digitsVal [d1, d2])
      else none
    else none
  | _ => none

/-- Python datetime.date.isoformat on a (year, month, day) date object. -/
def isoformatChars (t : Nat × Nat × Nat) : List Char := isoChars t.1 t.2.1 t.2.2

/-- Totally ordered encoding of a date triple; within fromisoChars ranges
(month at most 12, day at most 31) it orders exactly like Python date
objects, which compare componentwise. -/
def dateEnc (t : Nat × Nat × Nat) : Nat := (t.1 * 100 + t.2.1) * 100 + t.2.2

/-- The date triple of a canonical ISO string, 0-0-0 when unparseable; proof
utility over fromisoChars. -/
def parseOr0 (cs : List Char) : Nat × Nat × Nat := (fromisoChars cs).getD (0, 0, 0)

/-- Numeric date value of an ISO string, used to state chronological order. -/
def dateValNum (s : String) : Nat := dateEnc (parseOr0 s.data)

/-- What Python iteration yields on the argument of earliest_date/latest_date
once is_list_of_str has passed: the elements of a list, or the single-character
strings of a str. -/
def strItems : PyVal → List (List Char)
  | .vstr s => s.data.map (fun c => [c])
  | .vlist xs => xs.filterMap (fun v => match v with | .vstr t => some t.data | _ => none)
  | _ => []

/-- Sequential fromisoformat of every item, failing at the first invalid one,
exactly as the lazy generator inside min()/max() does. -/
def parseDates : List (List Char) → Except PyErr (List (Nat × Nat × Nat))
  | [] => .ok []
  | cs :: rest =>
    match fromisoChars cs with
    | none => .error (.valueError "Invalid isoformat string")
    | some t =>
      match parseDates rest with
      | .ok ts => .ok (t :: ts)
      | .error e => .error e

/-- earliest_date (date_utils.py lines 312-335): type-check the argument,
then min() of the parsed dates, returned in ISO format. -/
def earliest_date (v : PyVal) : Except PyErr String :=
  if is_list_of_str v = false then .error (.valueError "date_list must be a list of strings")
  else
    match parseDates (strItems v) with
    | .error e => .error e
    | .ok [] => .error (.valueError "min() arg is an empty sequence")
    | .ok (t :: ts) =>
      .ok (String.mk (isoformatChars (ts.foldl (fun a x => if dateEnc x < dateEnc a then x else a) t)))

/-- latest_date (date_utils.py lines 337-360): type-check the argument, then
max() of the parsed dates, returned in ISO format. -/
def latest_date (v : PyVal) : Except PyErr String :=
  if is_list_of_str v = false then .error (.valueError "date_list must be a list of strings")
  else
    match parseDates (strItems v) with
    | .error e => .error e
    | .ok [] => .error (.valueError "max() arg is an empty sequence")
    | .ok (t :: ts) =>
      .ok (String.mk (isoformatChars (ts.foldl (fun a x => if dateEnc a < dateEnc x then x else a) t)))

/-- Word character for the regex word boundary; the repository only feeds
ASCII text, so the ASCII word class suffices. -/
def isWordChar (c : Char) : Bool := c.isAlpha ∨ isDigitCh c ∨ c = '_'

/-- Python str.capitalize() (ASCII): first character uppercased, the rest
lowercased. -/
def pyCapitalize : List Char → List Char
  | [] => []
  | c :: t => c.toUpper :: t.map Char.toLower

/-- The month-name map of _M_map (date_utils.py lines 46-84), in dict
insertion order: twelve full names then the abbreviated forms (May appears
once, serving as both). -/
def monthPairs : List (String × String) :=
  [("January", "01"), ("February", "02"), ("March", "03"), ("April", "04"),
   ("May", "05"), ("June", "06"), ("July", "07"), ("August", "08"),
   ("September", "09"), ("October", "10"), ("November", "11"), ("December", "12"),
   ("Jan", "01"), ("Feb", "02"), ("Mar", "03"), ("Apr", "04"),
   ("Jun", "06"), ("Jul", "07"), ("Aug", "08"), ("Sep", "09"),
   ("Oct", "10"), ("Nov", "11"), ("Dec", "12")]

/-- Dict lookup in the month map. -/
def monthLookup (key : List Char) : Option (List Char) :=
  (monthPairs.find? (fun p => p.1.data == key)).map (fun p => p.2.data)

/-- First match of the regex for a digit run at a word boundary inside the
day token of normalize_d_M_y, scanning with the word-ness of the previous
character. -/
def findDigitRun : Bool → List Char → Option (List Char)
  | _, [] => none
  | prevW, c :: t =>
    if isDigitCh c = true ∧ prevW = false then some (c :: t.takeWhile isDigitCh)
    else findDigitRun (isWordChar c) t

/-- Body of normalize_d_M_y once the input has split on single spaces into
exactly three tokens (any other token count raises ValueError at unpacking,
caught and turned into None): leading digit run of the day zero-padded to two
digits, month name capitalized and looked up in the table, year used
verbatim, then a datetime.date.fromisoformat validity check. -/
def dMYSegs : List (List Char) → Option String
  | [d, M, y] =>
    match findDigitRun false d with
    | none => none
    | some dayRun =>
      match monthLookup (pyCapitalize M) with
      | none => none
      | some mm =>
        match fromisoChars (y ++ '-' :: (mm ++ '-' ::
            (if dayRun.length = 1 then '0' :: dayRun else dayRun))) with
        | some _ => some (String.mk (y ++ '-' :: (mm ++ '-' ::
            (if dayRun.length = 1 then '0' :: dayRun else dayRun))))
        | none => none
  | _ => none

/-- normalize_d_M_y (date_utils.py lines 158-208): turn a "d M y" fragment
into YYYY-MM-DD, returning None (never raising) on any failure. -/
def normalize_d_M_y (v : PyVal) : Option String :=
  match v with
  | .vstr s => dMYSegs (pySplitChar ' ' s.data)
  | _ => none

/-- Day part of the d-M-y regex at the start of the text: one digit 1-9 or a
two-digit combination 01-09, 10-19, 20-29, 30-31, exactly the alternatives of
_d_regex resolved deterministically (a one-digit day is only taken when no
digit follows, where the regex word boundary would fail anyway).  Returns the
number of characters consumed. -/
def parseDay : List Char → Option Nat
  | [] => none
  | c1 :: rest =>
    if isDigitCh c1 = false then none
    else
      match rest with
      | [] => if '1' ≤ c1 ∧ c1 ≤ '9' then some 1 else none
      | c2 :: _ =>
        if isDigitCh c2 then
          if (c1 = '0' ∧ '1' ≤ c2 ∧ c2 ≤ '9') ∨ c1 = '1' ∨ c1 = '2'
              ∨ (c1 = '3' ∧ (c2 = '0' ∨ c2 = '1')) then some 2
          else none
        else if '1' ≤ c1 ∧ c1 ≤ '9' then some 1 else none

/-- Case-insensitive ordinal suffix pair st/nd/rd/th of _d_regex. -/
def isSuffixPair (a b : Char) : Bool :=
  (a.toLower = 's' ∧ b.toLower = 't') ∨ (a.toLower = 'n' ∧ b.toLower = 'd')
  ∨ (a.toLower = 'r' ∧ b.toLower = 'd') ∨ (a.toLower = 't' ∧ b.toLower = 'h')

/-- After the day digits: either a space, or an ordinal suffix followed by a
space (the regex prefers the suffix, and the two cases exclude each other
since a suffix never starts with a space).  Returns characters consumed. -/
def afterDay : List Char → Option Nat
  | [] => none
  | a :: rest =>
    match rest with
    | [] => if a = ' ' then some 1 else none
    | b :: rest2 =>
      if isSuffixPair a b then
        match rest2 with
        | c :: _ => if c = ' ' then some 3 else none
        | [] => none
      else if a = ' ' then some 1 else none

/-- One month-name alternative of _M_regex: a case-insensitive match of the
name followed by the literal space of the overall pattern (which also
realizes the word boundary after the name). -/
def monthCheck (nm : String) (r : List Char) : Option Nat :=
  if (r.take nm.data.length).map Char.toLower = nm.data.map Char.toLower
      ∧ (r.drop nm.data.length).head? = some ' ' then some nm.data.length else none

/-- The month-name alternation of _M_regex, tried in the dict order of
_M_map, as the regex engine does. -/
def matchMonth (r : List Char) : Option Nat :=
  (monthPairs.map Prod.fst).findSome? fun nm => monthCheck nm r

/-- Four digits followed by a word boundary (non-word character or end), the
_y_regex part. -/
def yearAt : List Char → Bool
  | a :: b :: c :: d :: rest =>
    isDigitCh a && isDigitCh b && isDigitCh c && isDigitCh d &&
      (match rest with | [] => true | e :: _ => !isWordChar e)
  | _ => false

/-- An anchored match of the full d-M-y pattern of get_d_M_y at the start of
l, where prevW says whether the preceding character is a word character (the
leading word boundary).  Returns the length of the matched substring. -/
def matchDMY (prevW : Bool) (l : List Char) : Option Nat :=
  if prevW then none
  else
    match parseDay l with
    | none => none
    | some dl =>
      match afterDay (l.drop dl) with
      | none => none
      | some al =>
        match matchMonth (l.drop (dl + al)) with
        | none => none
        | some ml =>
          if yearAt (l.drop (dl + al + ml + 1)) then some (dl + al + ml + 1 + 4) else none

/-- The finditer scan of get_d_M_y: try an anchored match at every position
left to right; on success emit the matched substring and continue right after
it (matches never overlap), else advance one character.  Fuel keeps the
recursion structural; any fuel above the text length is enough. -/
def scanDMY : Nat → Bool → List Char → List (List Char)
  | 0, _, _ => []
  | _ + 1, _, [] => []
  | f + 1, prevW, c :: t =>
    match matchDMY prevW (c :: t) with
    | some n => (c :: t).take n :: scanDMY f true ((c :: t).drop n)
    | none => scanDMY f (isWordChar c) t

/-- get_d_M_y (date_utils.py lines 118-156): all d-M-y substrings in order of
appearance, None for a non-string input or when nothing matches. -/
def get_d_M_y (v : PyVal) : Option (List String) :=
  match v with
  | .vstr s =>
    match scanDMY (s.data.length + 1) false s.data with
    | [] => none
    | toks => some (toks.map (fun t => String.mk t))
  | _ => none

/-- The word-character flag of the position i scanning l with initial flag
prevW: prevW at the start, afterwards the word-ness of the previous
character. -/
def scanPrev (prevW : Bool) (l : List Char) : Nat → Bool
  | 0 => prevW
  | j + 1 =>
    match l.drop j with
    | c :: _ => isWordChar c
    | [] => false

/-- The tokens ts appear in l, in order, disjointly, and each is an anchored
match of the d-M-y pattern in its own context (with the word flag of the
position before it, and followed by the rest of the text). -/
inductive DMYMatchesAt : Bool → List Char → List (List Char) → Prop
  | nil (b : Bool) (l : List Char) : DMYMatchesAt b l []
  | skip (b : Bool) (c : Char) (l : List Char) (ts : List (List Char)) :
      DMYMatchesAt (isWordChar c) l ts → DMYMatchesAt b (c :: l) ts
  | here (b : Bool) (t rest : List Char) (ts : List (List Char))
      (h : matchDMY b (t ++ rest) = some t.length) :
      DMYMatchesAt true rest ts → DMYMatchesAt b (t ++ rest) (t :: ts)

/-- The keyword arguments of Pub._prepare_filters / filter_pjt: each
criterion is either absent (KeyError path, skipped) or carries a dynamic
value. -/
structure FilterKwargs where
  normalized_publisher : Option PyVal := none
  normalized_journal : Option PyVal := none
  min_received : Option PyVal := none
  max_received : Option PyVal := none
  min_accepted : Option PyVal := none
  max_accepted : Option PyVal := none
  min_published : Option PyVal := none
  max_published : Option PyVal := none
  publication_type : Option PyVal := none

/-- The mutable state threaded through _prepare_filters: the connective for
the next clause, the accumulated clause text, and the positional argument
list. -/
structure FState where
  whereOrAnd : String
  add2query : String
  argsQuery : List String
deriving DecidableEq

/-- Initial _prepare_filters state (pub.py lines 520-523). -/
def initFState : FState := { whereOrAnd := "\nWHERE", add2query := "", argsQuery := [] }

/-- The list of strings a validated list-type criterion contributes: a scalar
string becomes a one-element list. -/
def asStrList : PyVal → List String
  | .vstr s => [s]
  | .vlist xs => xs.filterMap (fun v => match v with | .vstr s => some s | _ => none)
  | _ => []

/-- One IN-clause block of _prepare_filters (publishers and journals): check
the value is a (list of) string(s), else raise naming the criterion; append
the clause with one placeholder per element and extend the arguments. -/
def stepIn (colName errMsg : String) (v? : Option PyVal) (st : FState) : Except PyErr FState :=
  match v? with
  | none => .ok st
  | some v =>
    if is_list_of_str v = false then .error (.valueError errMsg)
    else
      .ok { whereOrAnd := "\nAND",
            add2query := st.add2query ++ st.whereOrAnd ++ " " ++ colName ++ " IN ("
              ++ String.intercalate ", " (List.replicate (asStrList v).length "?") ++ ")",
            argsQuery := st.argsQuery ++ asStrList v }

/-- The publication_type block (pub.py lines 671-686), identical to stepIn
except that the source omits the final where_or_and reassignment (a dead
store, preserved here for fidelity). -/
def stepInLast (colName errMsg : String) (v? : Option PyVal) (st : FState) :
    Except PyErr FState :=
  match v? with
  | none => .ok st
  | some v =>
    if is_list_of_str v = false then .error (.valueError errMsg)
    else
      .ok { whereOrAnd := st.whereOrAnd,
            add2query := st.add2query ++ st.whereOrAnd ++ " " ++ colName ++ " IN ("
              ++ String.intercalate ", " (List.replicate (asStrList v).length "?") ++ ")",
            argsQuery := st.argsQuery ++ asStrList v }

/-- One date-bound block of _prepare_filters: normalize the bound through
normalize_date_2iso; any ValueError is re-raised naming the criterion;
success appends one range-comparison clause and its single argument. -/
def stepDate (colName cmp errMsg : String) (v? : Option PyVal) (st : FState) :
    Except PyErr FState :=
  match v? with
  | none => .ok st
  | some v =>
    match normalize_date_2iso v with
    | .ok d =>
      .ok { whereOrAnd := "\nAND",
            add2query := st.add2query ++ st.whereOrAnd ++ " " ++ colName ++ " " ++ cmp ++ " ?",
            argsQuery := st.argsQuery ++ [d] }
    | .error _ => .error (.valueError errMsg)

/-- Pub._prepare_filters (pub.py lines 500-688): the nine criterion blocks in
source order, each either skipped, raising, or appending its clause and
arguments; returns the clause text and the positionally ordered arguments. -/
def prepare_filters (k : FilterKwargs) : Except PyErr (String × List String) :=
  match stepIn "normalized_publisher" "Invalid publishers filter; must be a (list of) string(s)."
      k.normalized_publisher initFState with
  | .error e => .error e
  | .ok st1 =>
    match stepIn "normalized_journal" "Invalid journals filter; must be a (list of) string(s)."
        k.normalized_journal st1 with
    | .error e => .error e
    | .ok st2 =>
      match stepDate "normalized_received" ">=" "Invalid minimum received date."
          k.min_received st2 with
      | .error e => .error e
      | .ok st3 =>
        match stepDate "normalized_received" "<=" "Invalid maximum received date."
            k.max_received st3 with
        | .error e => .error e
        | .ok st4 =>
          match stepDate "normalized_accepted" ">=" "Invalid minimum accepted date."
              k.min_accepted st4 with
          | .error e => .error e
          | .ok st5 =>
            match stepDate "normalized_accepted" "<=" "Invalid maximum accepted date."
                k.max_accepted st5 with
            | .error e => .error e
            | .ok st6 =>
              match stepDate "normalized_published" ">=" "Invalid minimum published date."
                  k.min_published st6 with
              | .error e => .error e
              | .ok st7 =>
                match stepDate "normalized_published" "<=" "Invalid maximum published date."
                    k.max_published st7 with
                | .error e => .error e
                | .ok st8 =>
                  match stepInLast "publication_type"
                      "Invalid publication type filter; must be a (list of) string(s)."
                      k.publication_type st8 with
                  | .error e => .error e
                  | .ok st9 => .ok (st9.add2query, st9.argsQuery)

/-- Lexicographic comparison of character lists; on ASCII text this is
exactly SQLite's binary string collation (byte order). -/
def charListLe : List Char → List Char → Bool
  | [], _ => true
  | _ :: _, [] => false
  | a :: as, b :: bs => if a < b then true else if b < a then false else charListLe as bs

/-- SQL semantics of one compiled clause "col >= ?" over a row column value:
SQLite string comparison is binary (lexicographic on ASCII), and a NULL
column makes the comparison NULL, which WHERE treats as not satisfied. -/
def sqlGeClauseHolds (col : Option String) (arg : String) : Prop :=
  ∃ d, col = some d ∧ charListLe arg.data d.data = true

/-- SQL semantics of one compiled clause "col <= ?"; see sqlGeClauseHolds. -/
def sqlLeClauseHolds (col : Option String) (arg : String) : Prop :=
  ∃ d, col = some d ∧ charListLe d.data arg.data = true

/-- A list-type criterion value that _prepare_filters must reject: present
and not a (list of) string(s). -/
def MalList (v? : Option PyVal) : Prop :=
  ∃ v, v? = some v ∧ is_list_of_str v = false

/-- A date-bound value that _prepare_filters must reject: present and
rejected by normalize_date_2iso. -/
def MalDate (v? : Option PyVal) : Prop :=
  ∃ v e, v? = some v ∧ normalize_date_2iso v = .error e


/-- FilteredPub: the result record of a pub-table search
(collections.namedtuple FilteredPub in appeer.db.tables.pub); the last
four fields default to None. -/
structure FilteredPub where
  doi : String
  publisher : String
  journal : String
  normalized_received : Option String
  normalized_accepted : Option String
  normalized_published : Option String
  received_2_accepted : Option Int
  received_2_published : Option Int
  accepted_2_published : Option Int
  title : Option String := none
  publication_type : Option String := none
  no_of_authors : Option Int := none
  affiliations : Option String := none
deriving DecidableEq

/-- Modelled from the spec: an absent date sorts after every present date,
so the sort key of an optional date is a lexicographic pair whose first
component flags absence (false = present < true = absent) and whose second
is the date text; ISO date strings compare chronologically as char lists. -/
def dateKey : Option String → Bool ×ₗ List Char
  | none => toLex (true, [])
  | some d => toLex (false, d.data)

/-- Modelled from the spec: the search-result sort key — ascending
lexicographic on (publisher, journal, received date, accepted date), with
absent dates last within their group. -/
def pubKey (p : FilteredPub) :
    (List Char) ×ₗ ((List Char) ×ₗ ((Bool ×ₗ List Char) ×ₗ (Bool ×ₗ List Char))) :=
  toLex (p.publisher.data,
    toLex (p.journal.data,
      toLex (dateKey p.normalized_received, dateKey p.normalized_accepted)))

/-- Modelled from the spec: the ordering relation on search results induced
by pubKey. -/
def pubOrd (p q : FilteredPub) : Prop := pubKey p ≤ pubKey q

instance : DecidableRel pubOrd := fun p q => inferInstanceAs (Decidable (pubKey p ≤ pubKey q))

instance : IsTotal FilteredPub pubOrd := ⟨fun p q => le_total (pubKey p) (pubKey q)⟩

instance : IsTrans FilteredPub pubOrd := ⟨fun _ _ _ h1 h2 => le_trans h1 h2⟩

/-- Modelled from the spec: filter_pjt orders the filtered records by a
stable, deterministic ascending sort on (publisher, journal, received date,
accepted date); insertion sort is stable. -/
def filter_pjt_order (l : List FilteredPub) : List FilteredPub :=
  List.insertionSort pubOrd l

/-- Two records belong to the same publisher/journal group. -/
def samePJ (p q : FilteredPub) : Prop :=
  p.publisher = q.publisher ∧ p.journal = q.journal

/-- A record with all dates present. -/
def fpPresent : FilteredPub :=
  { doi := "10.1/a"
    publisher := "ACS"
    journal := "JACS"
    normalized_received := some "2000-01-01"
    normalized_accepted := some "2000-02-01"
    normalized_published := some "2000-03-01"
    received_2_accepted := some 31
    received_2_published := some 60
    accepted_2_published := some 29 }

/-- A record (same publisher/journal group as fpPresent) with all dates
absent. -/
def fpAbsent : FilteredPub :=
  { doi := "10.1/b"
    publisher := "ACS"
    journal := "JACS"
    normalized_received := none
    normalized_accepted := none
    normalized_published := none
    received_2_accepted := none
    received_2_published := none
    accepted_2_published := none }


/-- A FilteredPub date column as the Python value the analyzer passes on:
the date string, or None when absent. -/
def optToPy : Option String → PyVal
  | none => PyVal.vnone
  | some s => PyVal.vstr s

/-- First-occurrence deduplication: the key order of a collections.Counter
(insertion-ordered dict), and the distinct values SELECT DISTINCT works
over. -/
def dedupFirst {α : Type} [DecidableEq α] : List α → List α
  | [] => []
  | x :: xs => x :: (dedupFirst xs).filter (fun y => y ≠ x)

/-- collections.Counter over a list of strings: each distinct value in
first-occurrence order with its multiplicity. -/
def counterOf (l : List String) : List (String × Nat) :=
  (dedupFirst l).map (fun s => (s, l.count s))

/-- The dictionary built by PubAnalyzer.basic_search_results
(analyzer.py lines 53-122), in its key order. -/
structure BasicResults where
  no_of_pubs : Nat
  publishers : List (String × Nat)
  no_of_publishers : Nat
  journals : List (String × Nat)
  no_of_journals : Nat
  min_received : String
  max_received : String
  min_accepted : String
  max_accepted : String
  min_published : String
  max_published : String
  average_ra : ℚ
  average_rp : ℚ
  average_ap : ℚ
deriving DecidableEq

/-- numpy.average on a Python list of ints/Nones: any None makes the
element-wise sum raise a TypeError; otherwise the arithmetic mean.  (The
analyzer only calls it on non-empty lists, so the empty-list value is
immaterial.) -/
def npAverage (l : List (Option Int)) : Except PyErr ℚ :=
  if l.any fun x => x = none then
    .error (.typeError "unsupported operand type(s) for +: 'int' and 'NoneType'")
  else
    .ok (((l.foldl (fun a x => a + x.getD 0) 0 : Int) : ℚ) / (l.length : ℚ))

/-- PubAnalyzer.basic_search_results (analyzer.py lines 53-122): an empty
record list yields the empty dict (none); otherwise counts and counters,
then the six date extrema via earliest_date/latest_date and the three
interval averages via numpy.average, each computed in source order with the
first exception propagating. -/
def basic_search_results (pubs : List FilteredPub) : Except PyErr (Option BasicResults) :=
  if pubs = [] then .ok none
  else
    match earliest_date (PyVal.vlist (pubs.map fun p => optToPy p.normalized_received)) with
    | .error e => .error e
    | .ok minRec =>
    match latest_date (PyVal.vlist (pubs.map fun p => optToPy p.normalized_received)) with
    | .error e => .error e
    | .ok maxRec =>
    match earliest_date (PyVal.vlist (pubs.map fun p => optToPy p.normalized_accepted)) with
    | .error e => .error e
    | .ok minAcc =>
    match latest_date (PyVal.vlist (pubs.map fun p => optToPy p.normalized_accepted)) with
    | .error e => .error e
    | .ok maxAcc =>
    match earliest_date (PyVal.vlist (pubs.map fun p => optToPy p.normalized_published)) with
    | .error e => .error e
    | .ok minPub =>
    match latest_date (PyVal.vlist (pubs.map fun p => optToPy p.normalized_published)) with
    | .error e => .error e
    | .ok maxPub =>
    match npAverage (pubs.map fun p => p.received_2_accepted) with
    | .error e => .error e
    | .ok avgRA =>
    match npAverage (pubs.map fun p => p.received_2_published) with
    | .error e => .error e
    | .ok avgRP =>
    match npAverage (pubs.map fun p => p.accepted_2_published) with
    | .error e => .error e
    | .ok avgAP =>
      .ok (some
        { no_of_pubs := pubs.length
          publishers := counterOf (pubs.map fun p => p.publisher)
          no_of_publishers := (counterOf (pubs.map fun p => p.publisher)).length
          journals := counterOf (pubs.map fun p => p.journal)
          no_of_journals := (counterOf (pubs.map fun p => p.journal)).length
          min_received := minRec
          max_received := maxRec
          min_accepted := minAcc
          max_accepted := maxAcc
          min_published := minPub
          max_published := maxPub
          average_ra := avgRA
          average_rp := avgRP
          average_ap := avgAP })


/-- A row of the pub table, restricted to the columns the summary queries
read; SQL columns are nullable. -/
structure PubRow where
  doi : String
  normalized_publisher : Option String
  normalized_journal : Option String
  publication_type : Option String
  normalized_received : Option String
  normalized_accepted : Option String
  normalized_published : Option String
deriving DecidableEq

/-- SQLite ascending ORDER BY key for a nullable text column: NULLs sort
first, then text ascending. -/
def sqlKey : Option String → Bool ×ₗ List Char
  | none => toLex (false, [])
  | some s => toLex (true, s.data)

/-- The ORDER BY relation on nullable text values. -/
def sqlLe (a b : Option String) : Prop := sqlKey a ≤ sqlKey b

instance : DecidableRel sqlLe := fun a b => inferInstanceAs (Decidable (sqlKey a ≤ sqlKey b))

/-- SQL MIN over a group: NULLs are ignored; NULL when every value is NULL. -/
def sqlMin (l : List (Option String)) : Option String :=
  match l.filterMap id with
  | [] => none
  | x :: xs => some (xs.foldl (fun a b => if charListLe b.data a.data then b else a) x)

/-- SQL MAX over a group: NULLs are ignored; NULL when every value is NULL. -/
def sqlMax (l : List (Option String)) : Option String :=
  match l.filterMap id with
  | [] => none
  | x :: xs => some (xs.foldl (fun a b => if charListLe a.data b.data then b else a) x)

/-- SQLite GROUP_CONCAT(DISTINCT expr): NULL inputs are skipped, distinct
values joined with a comma; NULL when every input is NULL. -/
def group_concat_distinct (l : List (Option String)) : Option String :=
  match dedupFirst (l.filterMap id) with
  | [] => none
  | x :: xs => some (xs.foldl (fun acc s => acc ++ "," ++ s) x)

/-- JournalSummary (collections.namedtuple in appeer.db.tables.pub). -/
structure JournalSummary where
  name : Option String
  count : Nat
  publication_types : Option String
  min_received : Option String
  max_received : Option String
  min_accepted : Option String
  max_accepted : Option String
  min_published : Option String
  max_published : Option String
deriving DecidableEq

/-- The aggregate row SELECTed for one journal group: COUNT of non-NULL
journal values, GROUP_CONCAT(DISTINCT publication_type||chr(124)), and the
MIN/MAX of the three normalized date columns. -/
def mkJournalSummary (grp : List PubRow) (j : Option String) : JournalSummary :=
  { name := j
    count := (grp.filter fun r => decide (r.normalized_journal ≠ none)).length
    publication_types :=
      group_concat_distinct (grp.map fun r => r.publication_type.map fun s => s ++ "|")
    min_received := sqlMin (grp.map fun r => r.normalized_received)
    max_received := sqlMax (grp.map fun r => r.normalized_received)
    min_accepted := sqlMin (grp.map fun r => r.normalized_accepted)
    max_accepted := sqlMax (grp.map fun r => r.normalized_accepted)
    min_published := sqlMin (grp.map fun r => r.normalized_published)
    max_published := sqlMax (grp.map fun r => r.normalized_published) }

/-- Pub.get_unique_publishers (pub.py lines 295-316): SELECT DISTINCT
normalized_publisher ORDER BY normalized_publisher. -/
def get_unique_publishers (rows : List PubRow) : List (Option String) :=
  List.insertionSort sqlLe (dedupFirst (rows.map fun r => r.normalized_publisher))

/-- Pub.get_unique_journals (pub.py lines 318-345): None if the publisher
does not occur; otherwise SELECT DISTINCT normalized_journal of the
publisher's rows, ORDER BY normalized_journal. -/
def get_unique_journals (rows : List PubRow) (publisher : String) :
    Option (List (Option String)) :=
  if some publisher ∈ get_unique_publishers rows then
    some (List.insertionSort sqlLe (dedupFirst
      ((rows.filter fun r => decide (r.normalized_publisher = some publisher)).map
        fun r => r.normalized_journal)))
  else none

/-- Pub.get_publisher_summary (pub.py lines 348-420): None if the publisher
does not occur (checked before the aggregate query); otherwise one
JournalSummary per distinct journal of the publisher, GROUP BY
normalized_journal ORDER BY normalized_journal. -/
def get_publisher_summary (rows : List PubRow) (publisher : String) :
    Option (List JournalSummary) :=
  if some publisher ∈ get_unique_publishers rows then
    some ((List.insertionSort sqlLe (dedupFirst
        ((rows.filter fun r => decide (r.normalized_publisher = some publisher)).map
          fun r => r.normalized_journal))).map
      fun j => mkJournalSummary
        ((rows.filter fun r => decide (r.normalized_publisher = some publisher)).filter
          fun r => decide (r.normalized_journal = j)) j)
  else none

/-- Pub.get_journal_summary (pub.py lines 422-498): None if the publisher
does not occur, then None if the journal does not occur for that publisher
(both checked before the aggregate query); otherwise the single aggregate
row over the publisher+journal rows (every matching row carries this
journal name). -/
def get_journal_summary (rows : List PubRow) (publisher journal : String) :
    Option JournalSummary :=
  if some publisher ∈ get_unique_publishers rows then
    match get_unique_journals rows publisher with
    | none => none
    | some uj =>
      if some journal ∈ uj then
        some (mkJournalSummary
          (rows.filter fun r => decide (r.normalized_publisher = some publisher)
            && decide (r.normalized_journal = some journal)) (some journal))
      else none
  else none

/-- A concrete pub-table row. -/
def rowDemo : PubRow :=
  { doi := "10.1/a"
    normalized_publisher := some "ACS"
    normalized_journal := some "JACS"
    publication_type := some "research-article"
    normalized_received := some "2000-01-01"
    normalized_accepted := some "2000-02-01"
    normalized_published := some "2000-03-01" }

-- ===== THEOREMS =====

example : pyIntOfChars "2023".data = some 2023 := by decide

example : pyIntOfChars "+2023".data = some 2023 := by decide

example : pyIntOfChars "".data = none := by decide

example : pyIntOfChars "abcd".data = none := by decide

example : pySplitChar '-' "2000-03-05".data = ["2000".data, "03".data, "05".data] := by decide

example : pySplitChar '-' "-2000".data = ["".data, "2000".data] := by decide

example : natToDigits 2023 = "2023".data := by decide

example : padZeros 4 (natToDigits 42) = "0042".data := by decide

example : normalize_date_2iso (.vstr "2000") = .ok "2000-01-01" := by decide

example : normalize_date_2iso (.vstr "2000-03") = .ok "2000-03-01" := by decide

example : normalize_date_2iso (.vstr "2000-03-05") = .ok "2000-03-05" := by decide

example : normalize_date_2iso (.vstr "+2023") = .ok "2023-01-01" := by decide

example : normalize_date_2iso (.vstr "-2023") = .error (.valueError yearErrMsg) := by decide

example : normalize_date_2iso (.vstr "2023-02-30") =
    .error (.valueError "Inputted date is invalid.") := by decide

example : normalize_date_2iso (.vstr "2023-13") =
    .error (.valueError "Invalid month passed; must be between 1 and 12") := by decide

example : normalize_date_2iso (.vstr "abcd") = .error (.valueError yearErrMsg) := by decide

example : normalize_date_2iso (.vstr "0000") =
    .error (.valueError "Inputted date is invalid.") := by decide

example : normalize_date_2iso (.vstr "12345") =
    .error (.valueError "Inputted date is invalid.") := by decide

example : normalize_date_2iso (.vstr "2000-01-01-05") =
    .error (.valueError formatErrMsg) := by decide

example : normalize_date_2iso (.vstr "2024-02-29") = .ok "2024-02-29" := by decide

example : normalize_date_2iso (.vstr "1900-02-29") =
    .error (.valueError "Inputted date is invalid.") := by decide

/-! ## Decimal digit infrastructure lemmas -/

theorem natToDigitsAux_stable (f f' n : Nat) (hf : n < f) (hf' : n < f') :
    natToDigitsAux f n = natToDigitsAux f' n := by
  induction f generalizing f' n with
  | zero => omega
  | succ f ih =>
    cases f' with
    | zero => omega
    | succ f' =>
      unfold natToDigitsAux
      by_cases h : n < 10
      · simp [h]
      · have hd : n / 10 < n := Nat.div_lt_self (by omega) (by omega)
        simp only [h, if_false]
        rw [ih f' (n / 10) (by omega) (by omega)]

theorem natToDigits_lt10 (n : Nat) (h : n < 10) : natToDigits n = [dChar n] := by
  unfold natToDigits natToDigitsAux
  simp [h]

theorem natToDigits_ge10 (n : Nat) (h : 10 ≤ n) :
    natToDigits n = natToDigits (n / 10) ++ [dChar (n % 10)] := by
  have hd : n / 10 < n := Nat.div_lt_self (by omega) (by omega)
  unfold natToDigits
  conv_lhs => unfold natToDigitsAux
  simp only [Nat.not_lt.mpr h, if_false]
  rw [natToDigitsAux_stable n (n / 10 + 1) (n / 10) (by omega) (by omega)]

theorem dVal_dChar (n : Nat) (h : n < 10) : dVal (dChar n) = n := by
  interval_cases n <;> decide

theorem isDigitCh_dChar (n : Nat) (h : n < 10) : isDigitCh (dChar n) = true := by
  interval_cases n <;> decide

theorem natToDigits_all_digits (n : Nat) : ∀ c ∈ natToDigits n, isDigitCh c = true := by
  induction n using Nat.strong_induction_on with
  | _ n ih =>
    by_cases h : n < 10
    · rw [natToDigits_lt10 n h]
      intro c hc
      rw [List.mem_singleton] at hc
      subst hc
      exact isDigitCh_dChar n h
    · rw [natToDigits_ge10 n (by omega)]
      intro c hc
      rcases List.mem_append.mp hc with h1 | h2
      · exact ih (n / 10) (Nat.div_lt_self (by omega) (by omega)) c h1
      · rw [List.mem_singleton] at h2
        subst h2
        exact isDigitCh_dChar _ (Nat.mod_lt _ (by omega))

theorem natToDigits_ne_nil (n : Nat) : natToDigits n ≠ [] := by
  by_cases h : n < 10
  · rw [natToDigits_lt10 n h]; simp
  · rw [natToDigits_ge10 n (by omega)]; simp

theorem digitsVal_append_singleton (l : List Char) (c : Char) :
    digitsVal (l ++ [c]) = 10 * digitsVal l + dVal c := by
  unfold digitsVal
  rw [List.foldl_append]
  rfl

theorem digitsVal_natToDigits (n : Nat) : digitsVal (natToDigits n) = n := by
  induction n using Nat.strong_induction_on with
  | _ n ih =>
    by_cases h : n < 10
    · rw [natToDigits_lt10 n h]
      show 10 * 0 + dVal (dChar n) = n
      rw [dVal_dChar n h]; omega
    · rw [natToDigits_ge10 n (by omega), digitsVal_append_singleton,
        ih (n / 10) (Nat.div_lt_self (by omega) (by omega)),
        dVal_dChar _ (Nat.mod_lt _ (by omega))]
      omega

theorem digitsVal_zeros_prefix (k : Nat) (l : List Char) :
    digitsVal (List.replicate k '0' ++ l) = digitsVal l := by
  induction k with
  | zero => rfl
  | succ k ih =>
    show digitsVal (('0' :: List.replicate k '0') ++ l) = digitsVal l
    unfold digitsVal at ih ⊢
    simpa using ih

theorem digitsVal_padZeros (k : Nat) (l : List Char) :
    digitsVal (padZeros k l) = digitsVal l := digitsVal_zeros_prefix _ l

theorem natToDigits_length_le (n k : Nat) (hk : 1 ≤ k) (h : n < 10 ^ k) :
    (natToDigits n).length ≤ k := by
  induction n using Nat.strong_induction_on generalizing k with
  | _ n ih =>
    by_cases h10 : n < 10
    · rw [natToDigits_lt10 n h10]; simpa using hk
    · have hk2 : 2 ≤ k := by
        by_contra hc
        have : k = 1 := by omega
        subst this
        simp at h
        omega
      rw [natToDigits_ge10 n (by omega)]
      have hdiv : n / 10 < 10 ^ (k - 1) := by
        rw [Nat.div_lt_iff_lt_mul (by omega)]
        calc n < 10 ^ k := h
        _ = 10 ^ (k - 1) * 10 := by
              rw [← Nat.pow_succ]
              congr 1
              omega
      have := ih (n / 10) (Nat.div_lt_self (by omega) (by omega)) (k - 1) (by omega) hdiv
      simp only [List.length_append, List.length_singleton]
      omega

theorem isDigitCh_not_ws (c : Char) (h : isDigitCh c = true) : isPyWs c = false := by
  unfold isDigitCh at h
  unfold isPyWs
  simp only [decide_eq_true_eq] at h
  simp only [decide_eq_false_iff_not]
  intro hor
  rcases hor with h1 | h1 | h1 | h1 | h1 | h1 <;> omega

theorem digitsURest_digits (rest : List Char) (acc : Nat)
    (h : ∀ c ∈ rest, isDigitCh c = true) :
    digitsURest acc rest = some (rest.foldl (fun a c => 10 * a + dVal c) acc) := by
  induction rest generalizing acc with
  | nil => rfl
  | cons c t ih =>
    unfold digitsURest
    rw [h c (List.mem_cons_self c t)]
    simp only [if_true]
    rw [ih _ (fun x hx => h x (List.mem_cons_of_mem c hx))]
    rfl

theorem char_eq_of_toNat_eq (c d : Char) (h : c.toNat = d.toNat) : c = d := by
  apply Char.ext
  apply UInt32.ext
  exact h

theorem dVal_lt10 (c : Char) (h : isDigitCh c = true) : dVal c < 10 := by
  unfold isDigitCh at h
  simp only [decide_eq_true_eq] at h
  unfold dVal
  omega

theorem dChar_toNat (n : Nat) (h : n < 10) : (dChar n).toNat = 48 + n := by
  interval_cases n <;> decide

theorem dChar_dVal (c : Char) (h : isDigitCh c = true) : dChar (dVal c) = c := by
  unfold isDigitCh at h
  simp only [decide_eq_true_eq] at h
  apply char_eq_of_toNat_eq
  rw [dChar_toNat _ (dVal_lt10 c (by unfold isDigitCh; simp only [decide_eq_true_eq]; omega))]
  unfold dVal
  omega

theorem digits_roundtrip (cs : List Char) (hne : cs ≠ [])
    (hd : ∀ c ∈ cs, isDigitCh c = true) :
    padZeros cs.length (natToDigits (digitsVal cs)) = cs := by
  induction cs using List.reverseRecOn with
  | nil => simp at hne
  | append_singleton init x ih =>
    have hx : isDigitCh x = true := hd x (by simp)
    have hxlt : dVal x < 10 := dVal_lt10 x hx
    have hval : digitsVal (init ++ [x]) = 10 * digitsVal init + dVal x :=
      digitsVal_append_singleton init x
    rcases List.eq_nil_or_concat init with hinit | ⟨l, a, hconcat⟩
    · subst hinit
      rw [hval]
      simp only [List.nil_append, List.length_singleton]
      have : (10 : Nat) * digitsVal [] + dVal x = dVal x := by
        unfold digitsVal
        simp
      rw [this, natToDigits_lt10 _ hxlt, dChar_dVal x hx]
      unfold padZeros
      simp
    · have hne' : init ≠ [] := by

        rw [hconcat]
        simp
      have ihq := ih hne' (fun c hc => hd c (List.mem_append_left _ hc))
      have hlen : 1 ≤ init.length := by
        cases init with
        | nil => exact absurd rfl hne'
        | cons a t => simp
      rw [hval]
      by_cases hq : digitsVal init = 0
      · -- the prefix is all zeros
        rw [hq] at ihq ⊢
        rw [natToDigits_lt10 0 (by omega)] at ihq
        have hzero : init = List.replicate init.length '0' := by
          have : padZeros init.length [dChar 0] =
              List.replicate (init.length - 1) '0' ++ [dChar 0] := by
            unfold padZeros
            simp
          rw [this] at ihq
          have : List.replicate (init.length - 1) '0' ++ [dChar 0] =
              List.replicate init.length '0' := by
            have h1 : init.length = (init.length - 1) + 1 := by omega
            rw [h1, List.replicate_succ']
            rfl
          rw [← this, ihq]
        have hsmall : 10 * 0 + dVal x < 10 := by omega
        rw [natToDigits_lt10 _ hsmall]
        have : (10 : Nat) * 0 + dVal x = dVal x := by omega
        rw [this, dChar_dVal x hx]
        unfold padZeros
        simp only [List.length_append, List.length_singleton, Nat.add_sub_cancel]
        conv_rhs => rw [hzero]
      · -- the value is at least 10: peel the last digit
        have hge : 10 ≤ 10 * digitsVal init + dVal x := by omega
        rw [natToDigits_ge10 _ hge]
        have hdiv : (10 * digitsVal init + dVal x) / 10 = digitsVal init := by omega
        have hmod : (10 * digitsVal init + dVal x) % 10 = dVal x := by omega
        rw [hdiv, hmod, dChar_dVal x hx]
        unfold padZeros at ihq ⊢
        simp only [List.length_append, List.length_singleton]
        have hcnt : init.length + 1 - ((natToDigits (digitsVal init)).length + 1)
            = init.length - (natToDigits (digitsVal init)).length := by omega
        rw [hcnt, ← List.append_assoc, ihq]

theorem dropWhile_eq_self_of_all_false (p : Char → Bool) (l : List Char)
    (h : ∀ c ∈ l, p c = false) : List.dropWhile p l = l := by
  cases l with
  | nil => rfl
  | cons a t =>
    rw [List.dropWhile_cons]
    simp [h a (List.mem_cons_self a t)]

theorem pyIntOfChars_digits (cs : List Char) (hne : cs ≠ [])
    (hd : ∀ c ∈ cs, isDigitCh c = true) :
    pyIntOfChars cs = some (Int.ofNat (digitsVal cs)) := by
  have hnws : ∀ c ∈ cs, isPyWs c = false := fun c hc => isDigitCh_not_ws c (hd c hc)
  have h1 : List.dropWhile isPyWs cs = cs := dropWhile_eq_self_of_all_false _ _ hnws
  have h2 : List.dropWhile isPyWs cs.reverse = cs.reverse :=
    dropWhile_eq_self_of_all_false _ _ (fun c hc => hnws c (List.mem_reverse.mp hc))
  unfold pyIntOfChars
  rw [h1, h2, List.reverse_reverse]
  cases cs with
  | nil => exact absurd rfl hne
  | cons c rest =>
    unfold pyIntCore
    have hc : isDigitCh c = true := hd c (List.mem_cons_self c rest)
    have hcp : ¬(c = '+') := by
      intro hcontr
      subst hcontr
      exact absurd hc (by decide)
    have hcm : ¬(c = '-') := by
      intro hcontr
      subst hcontr
      exact absurd hc (by decide)
    simp only [hcp, if_false, hcm, hc, if_true]
    rw [digitsURest_digits rest (dVal c) (fun x hx => hd x (List.mem_cons_of_mem c hx))]
    have : rest.foldl (fun a c => 10 * a + dVal c) (dVal c) = digitsVal (c :: rest) := by
      unfold digitsVal
      rw [List.foldl_cons]
      congr 1
      omega
    rw [this]
    rfl

theorem pySplitChar_ne_nil (sep : Char) (l : List Char) : pySplitChar sep l ≠ [] := by
  cases l with
  | nil => simp [pySplitChar]
  | cons c rest =>
    unfold pySplitChar
    match h : pySplitChar sep rest with
    | [] => simp
    | h2 :: t =>
      by_cases hc : c = sep <;> simp [hc]

theorem pySplitChar_not_mem (sep : Char) (l : List Char) (h : sep ∉ l) :
    pySplitChar sep l = [l] := by
  induction l with
  | nil => rfl
  | cons c rest ih =>
    have hc : c ≠ sep := fun hcontr => h (hcontr ▸ List.mem_cons_self c rest)
    have hrest : sep ∉ rest := fun hcontr => h (List.mem_cons_of_mem c hcontr)
    unfold pySplitChar
    rw [ih hrest]
    simp [hc]

theorem pySplitChar_cons (sep c : Char) (rest : List Char) :
    pySplitChar sep (c :: rest) =
      match pySplitChar sep rest with
      | [] => [[]]
      | h :: t => if c = sep then [] :: h :: t else (c :: h) :: t := rfl

theorem pySplitChar_append (sep : Char) (a b : List Char) (ha : sep ∉ a) :
    pySplitChar sep (a ++ sep :: b) = a :: pySplitChar sep b := by
  induction a with
  | nil =>
    show pySplitChar sep (sep :: b) = [] :: pySplitChar sep b
    rw [pySplitChar_cons]
    cases h : pySplitChar sep b with
    | nil => exact absurd h (pySplitChar_ne_nil sep b)
    | cons h2 t => simp
  | cons c rest ih =>
    have hc : c ≠ sep := fun hcontr => ha (hcontr ▸ List.mem_cons_self c rest)
    have hrest : sep ∉ rest := fun hcontr => ha (List.mem_cons_of_mem c hcontr)
    show pySplitChar sep (c :: (rest ++ sep :: b)) = (c :: rest) :: pySplitChar sep b
    rw [pySplitChar_cons, ih hrest]
    simp [hc]

theorem pySplitChar_mem_not_mem (sep : Char) (l : List Char) :
    ∀ seg ∈ pySplitChar sep l, sep ∉ seg := by
  induction l with
  | nil =>
    intro seg hseg
    simp only [pySplitChar, List.mem_singleton] at hseg
    subst hseg
    simp
  | cons c rest ih =>
    intro seg hseg
    rw [pySplitChar_cons] at hseg
    cases h : pySplitChar sep rest with
    | nil => exact absurd h (pySplitChar_ne_nil sep rest)
    | cons h2 t =>
      rw [h] at hseg
      by_cases hc : c = sep
      · simp only [hc, if_true, List.mem_cons] at hseg
        rcases hseg with rfl | hseg2
        · simp
        · exact ih seg (h ▸ (List.mem_cons.mpr hseg2))
      · simp only [hc, if_false, List.mem_cons] at hseg
        rcases hseg with rfl | hseg2
        · intro hmem
          rcases List.mem_cons.mp hmem with rfl | hmem2
          · exact hc rfl
          · exact ih h2 (h ▸ List.mem_cons_self h2 t) hmem2
        · exact ih seg (h ▸ List.mem_cons_of_mem h2 hseg2)

theorem pyIntCore_nonneg (core : List Char) (hm : '-' ∉ core) (i : Int)
    (h : pyIntCore core = some i) : 0 ≤ i := by
  match core with
  | [] => exact absurd h (by simp [pyIntCore])
  | c :: rest =>
    simp only [pyIntCore] at h
    have hcm : ¬(c = '-') := by
      intro hcontr
      exact hm (hcontr ▸ List.mem_cons_self c rest)
    by_cases hp : c = '+'
    · rw [if_pos hp] at h
      rcases Option.map_eq_some'.mp h with ⟨n, _, rfl⟩
      exact Int.ofNat_nonneg n
    · rw [if_neg hp, if_neg hcm] at h
      by_cases hdig : isDigitCh c = true
      · rw [if_pos hdig] at h
        rcases Option.map_eq_some'.mp h with ⟨n, _, rfl⟩
        exact Int.ofNat_nonneg n
      · rw [if_neg hdig] at h
        exact absurd h (by simp)

theorem pyIntOfChars_nonneg (l : List Char) (hm : '-' ∉ l) (i : Int)
    (h : pyIntOfChars l = some i) : 0 ≤ i := by
  unfold pyIntOfChars at h
  refine pyIntCore_nonneg _ ?_ i h
  intro hc
  rw [List.mem_reverse] at hc
  have hc2 := (List.dropWhile_sublist isPyWs).subset hc
  rw [List.mem_reverse] at hc2
  exact hm ((List.dropWhile_sublist isPyWs).subset hc2)

/-! ## Shape lemmas for normalize_date_2iso outputs -/

theorem natToDigits_len_pos (n : Nat) : 1 ≤ (natToDigits n).length := by
  cases h : natToDigits n with
  | nil => exact absurd h (natToDigits_ne_nil n)
  | cons c t => simp

theorem pad2_eq_padZeros (l : List Char) (h1 : 1 ≤ l.length) (h2 : l.length ≤ 2) :
    (if l.length = 1 then '0' :: l else l) = padZeros 2 l := by
  unfold padZeros
  by_cases h : l.length = 1
  · rw [if_pos h, h]
    rfl
  · rw [if_neg h]
    have : l.length = 2 := by omega
    rw [this]
    simp

theorem padZeros_all_digits (k : Nat) (l : List Char) (h : ∀ c ∈ l, isDigitCh c = true) :
    ∀ c ∈ padZeros k l, isDigitCh c = true := by
  intro c hc
  unfold padZeros at hc
  rcases List.mem_append.mp hc with h1 | h2
  · rw [List.eq_of_mem_replicate h1]
    decide
  · exact h c h2

theorem padZeros_ne_nil (k : Nat) (l : List Char) (h : l ≠ []) : padZeros k l ≠ [] := by
  unfold padZeros
  simp [h]

theorem hyphen_not_mem_digits (l : List Char) (h : ∀ c ∈ l, isDigitCh c = true) :
    '-' ∉ l := by
  intro hmem
  have := h '-' hmem
  exact absurd this (by decide)

theorem pyInt_pad_natToDigits (k v : Nat) :
    pyIntOfChars (padZeros k (natToDigits v)) = some (Int.ofNat v) := by
  rw [pyIntOfChars_digits _ (padZeros_ne_nil k _ (natToDigits_ne_nil v))
    (padZeros_all_digits k _ (natToDigits_all_digits v))]
  rw [digitsVal_padZeros, digitsVal_natToDigits]

theorem isoChars_split (y m d : Nat) :
    pySplitChar '-' (isoChars y m d) =
      [padZeros 4 (natToDigits y), padZeros 2 (natToDigits m), padZeros 2 (natToDigits d)] := by
  unfold isoChars
  rw [pySplitChar_append '-' _ _
    (hyphen_not_mem_digits _ (padZeros_all_digits 4 _ (natToDigits_all_digits y)))]
  rw [pySplitChar_append '-' _ _
    (hyphen_not_mem_digits _ (padZeros_all_digits 2 _ (natToDigits_all_digits m)))]
  rw [pySplitChar_not_mem '-' _
    (hyphen_not_mem_digits _ (padZeros_all_digits 2 _ (natToDigits_all_digits d)))]

theorem normFinalCheck_isoChars (y m d : Nat) :
    normFinalCheck (isoChars y m d) =
      if pyDatetimeValid (Int.ofNat y) (Int.ofNat m) (Int.ofNat d) then .ok (isoChars y m d)
      else .error (.valueError "Inputted date is invalid.") := by
  unfold normFinalCheck
  rw [isoChars_split]
  simp only [pyInt_pad_natToDigits]

theorem yearStrOf_ok (seg out : List Char) (h : yearStrOf seg = .ok out) :
    ∃ y : Int, pyIntOfChars seg = some y ∧ out = padZeros 4 (intToChars y) := by
  unfold yearStrOf at h
  split at h
  · exact absurd h (by simp)
  · exact ⟨_, by assumption, (Except.ok.injEq _ _ ▸ h).symm⟩

theorem intToChars_ofNat (n : Nat) : intToChars (Int.ofNat n) = natToDigits n := by
  unfold intToChars
  rw [if_neg (by rw [Int.ofNat_eq_natCast]; omega)]
  rfl

theorem monthStrOf_ok (seg out : List Char) (h : monthStrOf seg = .ok out) :
    ∃ m : Nat, pyIntOfChars seg = some (Int.ofNat m) ∧ 1 ≤ m ∧ m ≤ 12 ∧
      out = padZeros 2 (natToDigits m) := by
  unfold monthStrOf at h
  split at h
  · exact absurd h (by simp)
  · rename_i month hseg
    split at h
    · rename_i hrange
      refine ⟨month.toNat, ?_, by omega, by omega, ?_⟩
      · rw [hseg]
        congr 1
        rw [Int.ofNat_eq_natCast]
        omega
      · have hits : intToChars month = natToDigits month.toNat := by
          unfold intToChars
          rw [if_neg (by omega)]
        rw [hits] at h
        have hlen1 : 1 ≤ (natToDigits month.toNat).length := natToDigits_len_pos _
        have hlen2 : (natToDigits month.toNat).length ≤ 2 :=
          natToDigits_length_le _ 2 (by omega) (by omega)
        rw [pad2_eq_padZeros (natToDigits month.toNat) hlen1 hlen2] at h
        exact (Except.ok.injEq _ _ ▸ h).symm
    · exact absurd h (by simp)

theorem dayStrOf_ok (seg out : List Char) (h : dayStrOf seg = .ok out) :
    ∃ d : Nat, pyIntOfChars seg = some (Int.ofNat d) ∧ 1 ≤ d ∧ d ≤ 31 ∧
      out = padZeros 2 (natToDigits d) := by
  unfold dayStrOf at h
  split at h
  · exact absurd h (by simp)
  · rename_i day hseg
    split at h
    · rename_i hrange
      refine ⟨day.toNat, ?_, by omega, by omega, ?_⟩
      · rw [hseg]
        congr 1
        rw [Int.ofNat_eq_natCast]
        omega
      · have hits : intToChars day = natToDigits day.toNat := by
          unfold intToChars
          rw [if_neg (by omega)]
        rw [hits] at h
        have hlen1 : 1 ≤ (natToDigits day.toNat).length := natToDigits_len_pos _
        have hlen2 : (natToDigits day.toNat).length ≤ 2 :=
          natToDigits_length_le _ 2 (by omega) (by omega)
        rw [pad2_eq_padZeros (natToDigits day.toNat) hlen1 hlen2] at h
        exact (Except.ok.injEq _ _ ▸ h).symm
    · exact absurd h (by simp)

theorem pad2_one : padZeros 2 (natToDigits 1) = '0' :: '1' :: [] := by decide

theorem isoChars_y_1_1 (y : Nat) : isoChars y 1 1 =
    padZeros 4 (natToDigits y) ++ '-' :: '0' :: '1' :: '-' :: '0' :: '1' :: [] := by
  unfold isoChars
  rw [pad2_one]
  simp

theorem isoChars_m_1 (y m : Nat) : isoChars y m 1 =
    padZeros 4 (natToDigits y) ++
      '-' :: (padZeros 2 (natToDigits m) ++ '-' :: '0' :: '1' :: []) := by
  unfold isoChars
  rw [pad2_one]

theorem daysInMonth_le (y m : Nat) : daysInMonth y m ≤ 31 := by
  unfold daysInMonth
  split_ifs <;> omega

theorem yearStrOf_of_nat (seg : List Char) (n : Nat)
    (hseg : pyIntOfChars seg = some (Int.ofNat n)) :
    yearStrOf seg = .ok (padZeros 4 (natToDigits n)) := by
  unfold yearStrOf
  rw [hseg, ← intToChars_ofNat n]

theorem monthStrOf_of_nat (seg : List Char) (m : Nat)
    (hseg : pyIntOfChars seg = some (Int.ofNat m)) (h1 : 1 ≤ m) (h2 : m ≤ 12) :
    monthStrOf seg = .ok (padZeros 2 (natToDigits m)) := by
  unfold monthStrOf
  rw [hseg]
  have hc1 : (1 : Int) ≤ Int.ofNat m := by rw [Int.ofNat_eq_natCast]; omega
  have hc2 : Int.ofNat m ≤ 12 := by rw [Int.ofNat_eq_natCast]; omega
  simp only [if_pos (And.intro hc1 hc2), intToChars_ofNat]
  rw [pad2_eq_padZeros _ (natToDigits_len_pos m) (natToDigits_length_le m 2 (by omega) (by omega))]

theorem dayStrOf_of_nat (seg : List Char) (d : Nat)
    (hseg : pyIntOfChars seg = some (Int.ofNat d)) (h1 : 1 ≤ d) (h2 : d ≤ 31) :
    dayStrOf seg = .ok (padZeros 2 (natToDigits d)) := by
  unfold dayStrOf
  rw [hseg]
  have hc1 : (1 : Int) ≤ Int.ofNat d := by rw [Int.ofNat_eq_natCast]; omega
  have hc2 : Int.ofNat d ≤ 31 := by rw [Int.ofNat_eq_natCast]; omega
  simp only [if_pos (And.intro hc1 hc2), intToChars_ofNat]
  rw [pad2_eq_padZeros _ (natToDigits_len_pos d) (natToDigits_length_le d 2 (by omega) (by omega))]

theorem normISO_isoChars (y m d : Nat)
    (hv : pyDatetimeValid (Int.ofNat y) (Int.ofNat m) (Int.ofNat d) = true) :
    normISO (isoChars y m d) = .ok (isoChars y m d) := by
  have hb := hv
  unfold pyDatetimeValid at hb
  simp only [decide_eq_true_eq] at hb
  obtain ⟨h1, h2, h3, h4, h5, h6, h7⟩ := hb
  have hm1 : 1 ≤ m := by rw [Int.ofNat_eq_natCast] at h3; omega
  have hm2 : m ≤ 12 := by rw [Int.ofNat_eq_natCast] at h4; omega
  have hd1 : 1 ≤ d := by rw [Int.ofNat_eq_natCast] at h5; omega
  have hd2 : d ≤ 31 := by
    have hle := daysInMonth_le (Int.ofNat y).toNat (Int.ofNat m).toNat
    have : (Int.ofNat d).toNat = d := by rw [Int.ofNat_eq_natCast]; omega
    omega
  unfold normISO
  rw [isoChars_split]
  simp only [normISOSegs, normISO3,
    yearStrOf_of_nat _ y (pyInt_pad_natToDigits 4 y),
    monthStrOf_of_nat _ m (pyInt_pad_natToDigits 2 m) hm1 hm2,
    dayStrOf_of_nat _ d (pyInt_pad_natToDigits 2 d) hd1 hd2]
  change normFinalCheck (isoChars y m d) = _
  rw [normFinalCheck_isoChars, if_pos hv]

theorem normISO_ok_shape (cs out : List Char) (h : normISO cs = .ok out) :
    ∃ y m d : Nat, out = isoChars y m d ∧
      pyDatetimeValid (Int.ofNat y) (Int.ofNat m) (Int.ofNat d) = true := by
  unfold normISO at h
  have hnomem := pySplitChar_mem_not_mem '-' cs
  cases hsplit : pySplitChar '-' cs with
  | nil =>
    rw [hsplit] at h
    exact absurd h (by simp [normISOSegs])
  | cons s0 r0 =>
    have hs0mem : s0 ∈ pySplitChar '-' cs := by
      rw [hsplit]
      exact List.mem_cons_self _ _
    cases r0 with
    | nil =>
      rw [hsplit] at h
      simp only [normISOSegs, normISO1] at h
      split at h
      · exact absurd h (by simp)
      · rename_i ystr hy
        rcases yearStrOf_ok s0 ystr hy with ⟨iy, hseg, hform⟩
        have hnn : 0 ≤ iy := pyIntOfChars_nonneg s0 (hnomem s0 hs0mem) iy hseg
        have hiy : iy = Int.ofNat iy.toNat := by rw [Int.ofNat_eq_natCast]; omega
        rw [hiy, intToChars_ofNat] at hform
        subst hform
        rw [← isoChars_y_1_1] at h
        rw [normFinalCheck_isoChars] at h
        split at h
        · rename_i hvalid
          exact ⟨iy.toNat, 1, 1, (Except.ok.injEq _ _ ▸ h).symm, hvalid⟩
        · exact absurd h (by simp)
    | cons s1 r1 =>
      have hs1mem : s1 ∈ pySplitChar '-' cs := by
        rw [hsplit]
        exact List.mem_cons_of_mem _ (List.mem_cons_self _ _)
      cases r1 with
      | nil =>
        rw [hsplit] at h
        simp only [normISOSegs, normISO2] at h
        split at h
        · exact absurd h (by simp)
        · rename_i ystr hy
          split at h
          · exact absurd h (by simp)
          · rename_i mstr hm
            rcases yearStrOf_ok s0 ystr hy with ⟨iy, hseg, hform⟩
            have hnn : 0 ≤ iy := pyIntOfChars_nonneg s0 (hnomem s0 hs0mem) iy hseg
            have hiy : iy = Int.ofNat iy.toNat := by rw [Int.ofNat_eq_natCast]; omega
            rw [hiy, intToChars_ofNat] at hform
            subst hform
            rcases monthStrOf_ok s1 mstr hm with ⟨m, hseg1, hm1, hm2, hformm⟩
            subst hformm
            rw [← isoChars_m_1] at h
            rw [normFinalCheck_isoChars] at h
            split at h
            · rename_i hvalid
              exact ⟨iy.toNat, m, 1, (Except.ok.injEq _ _ ▸ h).symm, hvalid⟩
            · exact absurd h (by simp)
      | cons s2 r2 =>
        have hs2mem : s2 ∈ pySplitChar '-' cs := by
          rw [hsplit]
          exact List.mem_cons_of_mem _ (List.mem_cons_of_mem _ (List.mem_cons_self _ _))
        cases r2 with
        | nil =>
          rw [hsplit] at h
          simp only [normISOSegs, normISO3] at h
          split at h
          · exact absurd h (by simp)
          · rename_i ystr hy
            split at h
            · exact absurd h (by simp)
            · rename_i mstr hm
              split at h
              · exact absurd h (by simp)
              · rename_i dstr hd
                rcases yearStrOf_ok s0 ystr hy with ⟨iy, hseg, hform⟩
                have hnn : 0 ≤ iy := pyIntOfChars_nonneg s0 (hnomem s0 hs0mem) iy hseg
                have hiy : iy = Int.ofNat iy.toNat := by rw [Int.ofNat_eq_natCast]; omega
                rw [hiy, intToChars_ofNat] at hform
                subst hform
                rcases monthStrOf_ok s1 mstr hm with ⟨m, hseg1, hm1, hm2, hformm⟩
                subst hformm
                rcases dayStrOf_ok s2 dstr hd with ⟨d, hseg2, hdd1, hdd2, hformd⟩
                subst hformd
                change normFinalCheck (isoChars iy.toNat m d) = _ at h
                rw [normFinalCheck_isoChars] at h
                split at h
                · rename_i hvalid
                  exact ⟨iy.toNat, m, d, (Except.ok.injEq _ _ ▸ h).symm, hvalid⟩
                · exact absurd h (by simp)
        | cons s3 r3 =>
          rw [hsplit] at h
          simp only [normISOSegs, normISO4plus] at h
          split at h
          · exact absurd h (by simp)
          · split at h
            · exact absurd h (by simp)
            · split at h
              · exact absurd h (by simp)
              · exact absurd h (by simp)

/-- Every string accepted by normalize_date_2iso normalizes to a fixed point:
the output is in canonical shape and re-normalizing it returns it unchanged. -/
theorem normalize_vstr_eq (t : String) :
    normalize_date_2iso (.vstr t) =
      match normISO t.data with
      | .ok cs => .ok (String.mk cs)
      | .error e => .error e := rfl

theorem normalize_date_2iso_fixed_point (s out : String)
    (h : normalize_date_2iso (.vstr s) = .ok out) :
    normalize_date_2iso (.vstr out) = .ok out := by
  rw [normalize_vstr_eq] at h
  rw [normalize_vstr_eq out]
  cases hcs : normISO s.data with
  | error e =>
    rw [hcs] at h
    exact absurd h (by simp)
  | ok cs =>
    rw [hcs] at h
    have hout : String.mk cs = out := by simpa using h
    rcases normISO_ok_shape s.data cs hcs with ⟨y, m, d, hshape, hvalid⟩
    subst hshape
    subst hout
    have hdata : (String.mk (isoChars y m d)).data = isoChars y m d := rfl
    rw [hdata, normISO_isoChars y m d hvalid]

/-! ## Error-propagation lemmas for normalize_date_2iso -/

theorem normalize_vstr_error (t : String) (e : PyErr) (h : normISO t.data = .error e) :
    normalize_date_2iso (.vstr t) = .error e := by
  rw [normalize_vstr_eq, h]

theorem normISOSegs_year_err (s0 : List Char) (rest : List (List Char)) (e : PyErr)
    (h : yearStrOf s0 = .error e) : normISOSegs (s0 :: rest) = .error e := by
  cases rest with
  | nil => simp only [normISOSegs, normISO1, h]
  | cons s1 r1 =>
    cases r1 with
    | nil => simp only [normISOSegs, normISO2, h]
    | cons s2 r2 =>
      cases r2 with
      | nil => simp only [normISOSegs, normISO3, h]
      | cons s3 r3 => simp only [normISOSegs, normISO4plus, h]

theorem normISOSegs_month_err (s0 s1 : List Char) (rest : List (List Char))
    (ystr : List Char) (e : PyErr)
    (hy : yearStrOf s0 = .ok ystr) (hm : monthStrOf s1 = .error e) :
    normISOSegs (s0 :: s1 :: rest) = .error e := by
  cases rest with
  | nil => simp only [normISOSegs, normISO2, hy, hm]
  | cons s2 r2 =>
    cases r2 with
    | nil => simp only [normISOSegs, normISO3, hy, hm]
    | cons s3 r3 => simp only [normISOSegs, normISO4plus, hy, hm]

theorem normISOSegs_day_err (s0 s1 s2 : List Char) (rest : List (List Char))
    (ystr mstr : List Char) (e : PyErr)
    (hy : yearStrOf s0 = .ok ystr) (hm : monthStrOf s1 = .ok mstr)
    (hd : dayStrOf s2 = .error e) :
    normISOSegs (s0 :: s1 :: s2 :: rest) = .error e := by
  cases rest with
  | nil => simp only [normISOSegs, normISO3, hy, hm, hd]
  | cons s3 r3 => simp only [normISOSegs, normISO4plus, hy, hm, hd]

theorem normISOSegs_4plus_format_err (s0 s1 s2 s3 : List Char) (rest : List (List Char))
    (ystr mstr dstr : List Char)
    (hy : yearStrOf s0 = .ok ystr) (hm : monthStrOf s1 = .ok mstr)
    (hd : dayStrOf s2 = .ok dstr) :
    normISOSegs (s0 :: s1 :: s2 :: s3 :: rest) = .error (.valueError formatErrMsg) := by
  simp only [normISOSegs, normISO4plus, hy, hm, hd]

theorem yearStrOf_none (s0 : List Char) (h : pyIntOfChars s0 = none) :
    yearStrOf s0 = .error (.valueError yearErrMsg) := by
  unfold yearStrOf
  rw [h]

theorem monthStrOf_none (s1 : List Char) (h : pyIntOfChars s1 = none) :
    monthStrOf s1 = .error (.valueError formatErrMsg) := by
  unfold monthStrOf
  rw [h]

theorem monthStrOf_range_err (s1 : List Char) (im : Int) (h : pyIntOfChars s1 = some im)
    (hr : ¬(1 ≤ im ∧ im ≤ 12)) :
    monthStrOf s1 = .error (.valueError "Invalid month passed; must be between 1 and 12") := by
  unfold monthStrOf
  rw [h]
  simp only [if_neg hr]

theorem dayStrOf_none (s2 : List Char) (h : pyIntOfChars s2 = none) :
    dayStrOf s2 = .error (.valueError formatErrMsg) := by
  unfold dayStrOf
  rw [h]

theorem dayStrOf_range_err (s2 : List Char) (idd : Int) (h : pyIntOfChars s2 = some idd)
    (hr : ¬(1 ≤ idd ∧ idd ≤ 31)) :
    dayStrOf s2 = .error (.valueError "Invalid day passed; must be between 1 and 31.") := by
  unfold dayStrOf
  rw [h]
  simp only [if_neg hr]

theorem normISOSegs_month_bad (s0 s1 : List Char) (rest : List (List Char))
    (hbad : pyIntOfChars s1 = none ∨ ∃ im, pyIntOfChars s1 = some im ∧ ¬(1 ≤ im ∧ im ≤ 12)) :
    ∃ e, normISOSegs (s0 :: s1 :: rest) = .error e := by
  cases hy : yearStrOf s0 with
  | error e => exact ⟨e, normISOSegs_year_err s0 _ e hy⟩
  | ok ystr =>
    rcases hbad with hnone | ⟨im, him, hr⟩
    · exact ⟨_, normISOSegs_month_err s0 s1 rest ystr _ hy (monthStrOf_none s1 hnone)⟩
    · exact ⟨_, normISOSegs_month_err s0 s1 rest ystr _ hy (monthStrOf_range_err s1 im him hr)⟩

theorem normISOSegs_day_bad (s0 s1 s2 : List Char) (rest : List (List Char))
    (hbad : pyIntOfChars s2 = none ∨ ∃ idd, pyIntOfChars s2 = some idd ∧ ¬(1 ≤ idd ∧ idd ≤ 31)) :
    ∃ e, normISOSegs (s0 :: s1 :: s2 :: rest) = .error e := by
  cases hy : yearStrOf s0 with
  | error e => exact ⟨e, normISOSegs_year_err s0 _ e hy⟩
  | ok ystr =>
    cases hm : monthStrOf s1 with
    | error e => exact ⟨e, normISOSegs_month_err s0 s1 _ ystr e hy hm⟩
    | ok mstr =>
      rcases hbad with hnone | ⟨idd, hid, hr⟩
      · exact ⟨_, normISOSegs_day_err s0 s1 s2 rest ystr mstr _ hy hm (dayStrOf_none s2 hnone)⟩
      · exact ⟨_, normISOSegs_day_err s0 s1 s2 rest ystr mstr _ hy hm
          (dayStrOf_range_err s2 idd hid hr)⟩

theorem normISOSegs_4plus_err (s0 s1 s2 s3 : List Char) (rest : List (List Char)) :
    ∃ e, normISOSegs (s0 :: s1 :: s2 :: s3 :: rest) = .error e := by
  cases hy : yearStrOf s0 with
  | error e => exact ⟨e, normISOSegs_year_err s0 _ e hy⟩
  | ok ystr =>
    cases hm : monthStrOf s1 with
    | error e => exact ⟨e, normISOSegs_month_err s0 s1 _ ystr e hy hm⟩
    | ok mstr =>
      cases hd : dayStrOf s2 with
      | error e => exact ⟨e, normISOSegs_day_err s0 s1 s2 _ ystr mstr e hy hm hd⟩
      | ok dstr =>
        exact ⟨_, normISOSegs_4plus_format_err s0 s1 s2 s3 rest ystr mstr dstr hy hm hd⟩

/-- C3: normalize_date_2iso is idempotent on its domain of success: for every
string on which it succeeds (in particular every accepted YYYY, YYYY-MM or
YYYY-MM-DD input), applying it to its own output returns that same output. -/
theorem C3_normalize_date_2iso_idempotent (s out : String)
    (h : normalize_date_2iso (.vstr s) = .ok out) :
    normalize_date_2iso (.vstr out) = .ok out :=
  normalize_date_2iso_fixed_point s out h

/-- Witness for C3 at the concrete input "2000-03": the output "2000-03-01"
re-normalizes to itself. -/
theorem C3_normalize_date_2iso_idempotent_witness :
    normalize_date_2iso (.vstr "2000-03-01") = .ok "2000-03-01" :=
  C3_normalize_date_2iso_idempotent "2000-03" "2000-03-01" (by decide)

/-- C4 counterexample: the claim says a year token carrying any sign raises,
but normalize_date_2iso accepts a plus-signed year ("+2023" is parsed by
Python int() to 2023) and returns "2023-01-01" instead of raising. -/
theorem C4_counterexample_plus_signed_year :
    normalize_date_2iso (.vstr "+2023") = .ok "2023-01-01" := by decide

/-- C4 (amended): normalize_date_2iso raises an explicit error for every
invalid input: a non-string, more than three hyphen-separated segments, a
non-integer segment, a year token carrying a minus sign (a leading plus sign
is accepted by Python int() and does not fail), a month outside 1-12, a day
outside 1-31, and no calendar-invalid date is ever returned; "2023-02-30",
"2023-13" and "abcd" all fail, and the calendar-invalid message is distinct
from every shape-failure message. -/
theorem C4_normalize_date_2iso_errors :
    (∀ v : PyVal, (∀ t, v ≠ .vstr t) →
      normalize_date_2iso v = .error (.valueError "Invalid date passed; must be a string."))
    ∧ (∀ (s : String) (t : List Char), s.data = '-' :: t →
      normalize_date_2iso (.vstr s) = .error (.valueError yearErrMsg))
    ∧ (∀ s : String, pyIntOfChars ((pySplitChar '-' s.data).headD []) = none →
      normalize_date_2iso (.vstr s) = .error (.valueError yearErrMsg))
    ∧ (∀ s : String, 3 < (pySplitChar '-' s.data).length →
      ∃ e, normalize_date_2iso (.vstr s) = .error e)
    ∧ (∀ (s : String) (s0 s1 : List Char) (rest : List (List Char)),
      pySplitChar '-' s.data = s0 :: s1 :: rest →
      (pyIntOfChars s1 = none ∨ ∃ im, pyIntOfChars s1 = some im ∧ ¬(1 ≤ im ∧ im ≤ 12)) →
      ∃ e, normalize_date_2iso (.vstr s) = .error e)
    ∧ (∀ (s : String) (s0 s1 s2 : List Char) (rest : List (List Char)),
      pySplitChar '-' s.data = s0 :: s1 :: s2 :: rest →
      (pyIntOfChars s2 = none ∨ ∃ idd, pyIntOfChars s2 = some idd ∧ ¬(1 ≤ idd ∧ idd ≤ 31)) →
      ∃ e, normalize_date_2iso (.vstr s) = .error e)
    ∧ (∀ (s out : String), normalize_date_2iso (.vstr s) = .ok out →
      ∃ y m d : Nat, out = String.mk (isoChars y m d) ∧
        pyDatetimeValid (Int.ofNat y) (Int.ofNat m) (Int.ofNat d) = true)
    ∧ normalize_date_2iso (.vstr "2023-02-30") = .error (.valueError "Inputted date is invalid.")
    ∧ normalize_date_2iso (.vstr "2023-13") =
        .error (.valueError "Invalid month passed; must be between 1 and 12")
    ∧ normalize_date_2iso (.vstr "abcd") = .error (.valueError yearErrMsg)
    ∧ ("Inputted date is invalid." ≠ yearErrMsg
        ∧ "Inputted date is invalid." ≠ formatErrMsg
        ∧ "Inputted date is invalid." ≠ "Invalid month passed; must be between 1 and 12"
        ∧ "Inputted date is invalid." ≠ "Invalid day passed; must be between 1 and 31."
        ∧ "Inputted date is invalid." ≠ "Invalid date passed; must be a string.") := by
  refine ⟨?_, ?_, ?_, ?_, ?_, ?_, ?_, by decide, by decide, by decide, by decide⟩
  · intro v hv
    cases v with
    | vstr t => exact absurd rfl (hv t)
    | vint n => rfl
    | vnone => rfl
    | vlist xs => rfl
  · intro s t hdata
    apply normalize_vstr_error
    unfold normISO
    rw [hdata, pySplitChar_cons]
    cases hsp : pySplitChar '-' t with
    | nil => exact absurd hsp (pySplitChar_ne_nil '-' t)
    | cons h2 tl =>
      have hred : (match h2 :: tl with
          | [] => [[]]
          | h :: t => if '-' = '-' then [] :: h :: t else ('-' :: h) :: t)
          = [] :: h2 :: tl := by simp
      rw [hred]
      exact normISOSegs_year_err [] _ _ (yearStrOf_none [] rfl)
  · intro s hnone
    cases hsp : pySplitChar '-' s.data with
    | nil => exact absurd hsp (pySplitChar_ne_nil '-' s.data)
    | cons s0 rest =>
      rw [hsp] at hnone
      apply normalize_vstr_error
      unfold normISO
      rw [hsp]
      exact normISOSegs_year_err s0 rest _ (yearStrOf_none s0 hnone)
  · intro s hlen
    cases hsp : pySplitChar '-' s.data with
    | nil => rw [hsp] at hlen; simp at hlen
    | cons s0 r0 =>
      cases r0 with
      | nil => rw [hsp] at hlen; simp at hlen
      | cons s1 r1 =>
        cases r1 with
        | nil => rw [hsp] at hlen; simp at hlen
        | cons s2 r2 =>
          cases r2 with
          | nil => rw [hsp] at hlen; simp at hlen
          | cons s3 r3 =>
            rcases normISOSegs_4plus_err s0 s1 s2 s3 r3 with ⟨e, he⟩
            refine ⟨e, normalize_vstr_error s e ?_⟩
            unfold normISO
            rw [hsp]
            exact he
  · intro s s0 s1 rest hsp hbad
    rcases normISOSegs_month_bad s0 s1 rest hbad with ⟨e, he⟩
    refine ⟨e, normalize_vstr_error s e ?_⟩
    unfold normISO
    rw [hsp]
    exact he
  · intro s s0 s1 s2 rest hsp hbad
    rcases normISOSegs_day_bad s0 s1 s2 rest hbad with ⟨e, he⟩
    refine ⟨e, normalize_vstr_error s e ?_⟩
    unfold normISO
    rw [hsp]
    exact he
  · intro s out h
    rw [normalize_vstr_eq] at h
    cases hcs : normISO s.data with
    | error e => rw [hcs] at h; exact absurd h (by simp)
    | ok cs =>
      rw [hcs] at h
      have hout : String.mk cs = out := by simpa using h
      rcases normISO_ok_shape s.data cs hcs with ⟨y, m, d, hshape, hvalid⟩
      exact ⟨y, m, d, by rw [← hout, hshape], hvalid⟩

/-- Witness for C4 (amended), applying the theorem at concrete inputs: None
as a non-string input, "-2023" as a minus-signed year, and "2000-01-01-05"
as a more-than-three-segment input. -/
theorem C4_normalize_date_2iso_errors_witness :
    normalize_date_2iso .vnone = .error (.valueError "Invalid date passed; must be a string.")
    ∧ normalize_date_2iso (.vstr "-2023") = .error (.valueError yearErrMsg)
    ∧ ∃ e, normalize_date_2iso (.vstr "2000-01-01-05") = .error e :=
  ⟨C4_normalize_date_2iso_errors.1 .vnone (fun t => by simp),
   C4_normalize_date_2iso_errors.2.1 "-2023" "2023".data (by decide),
   C4_normalize_date_2iso_errors.2.2.2.1 "2000-01-01-05" (by decide)⟩

/-! ## earliest_date / latest_date lemmas -/

theorem fromisoChars_not_ten (cs : List Char) (h : cs.length ≠ 10) :
    fromisoChars cs = none := by
  rcases cs with _ | ⟨c1, cs⟩
  · rfl
  rcases cs with _ | ⟨c2, cs⟩
  · rfl
  rcases cs with _ | ⟨c3, cs⟩
  · rfl
  rcases cs with _ | ⟨c4, cs⟩
  · rfl
  rcases cs with _ | ⟨c5, cs⟩
  · rfl
  rcases cs with _ | ⟨c6, cs⟩
  · rfl
  rcases cs with _ | ⟨c7, cs⟩
  · rfl
  rcases cs with _ | ⟨c8, cs⟩
  · rfl
  rcases cs with _ | ⟨c9, cs⟩
  · rfl
  rcases cs with _ | ⟨c10, cs⟩
  · rfl
  rcases cs with _ | ⟨c11, cs⟩
  · exact ((h rfl).elim)
  · rfl

theorem fromisoChars_roundtrip (cs : List Char) (t : Nat × Nat × Nat)
    (h : fromisoChars cs = some t) : isoformatChars t = cs := by
  by_cases hlen : cs.length = 10
  case neg =>
    rw [fromisoChars_not_ten cs hlen] at h
    exact Option.noConfusion h
  case pos =>
    rcases cs with _ | ⟨c1, cs⟩
    · exact absurd hlen (by simp)
    rcases cs with _ | ⟨c2, cs⟩
    · exact absurd hlen (by simp)
    rcases cs with _ | ⟨c3, cs⟩
    · exact absurd hlen (by simp)
    rcases cs with _ | ⟨c4, cs⟩
    · exact absurd hlen (by simp)
    rcases cs with _ | ⟨c5, cs⟩
    · exact absurd hlen (by simp)
    rcases cs with _ | ⟨c6, cs⟩
    · exact absurd hlen (by simp)
    rcases cs with _ | ⟨c7, cs⟩
    · exact absurd hlen (by simp)
    rcases cs with _ | ⟨c8, cs⟩
    · exact absurd hlen (by simp)
    rcases cs with _ | ⟨c9, cs⟩
    · exact absurd hlen (by simp)
    rcases cs with _ | ⟨c10, cs⟩
    · exact absurd hlen (by simp)
    rcases cs with _ | ⟨c11, cs⟩
    case cons.cons.cons.cons.cons.cons.cons.cons.cons.cons.cons =>
      exact absurd hlen (by simp)
    simp only [fromisoChars] at h
    split at h
    · rename_i hshape
      obtain ⟨hh1, hh2, hy1, hy2, hy3, hy4, hm1, hm2, hd1, hd2⟩ := hshape
      split at h
      · rename_i hrange
        have ht : t = (digitsVal [c1, c2, c3, c4], digitsVal [c6, c7], digitsVal [c9, c10]) :=
          (Option.some.injEq _ _ ▸ h).symm
        subst ht
        unfold isoformatChars isoChars
        have h4 : padZeros 4 (natToDigits (digitsVal [c1, c2, c3, c4])) = [c1, c2, c3, c4] :=
          digits_roundtrip [c1, c2, c3, c4] (by simp)
            (by intro c hc
                simp only [List.mem_cons, List.not_mem_nil, or_false] at hc
                rcases hc with rfl | rfl | rfl | rfl <;> assumption)
        have hmm : padZeros 2 (natToDigits (digitsVal [c6, c7])) = [c6, c7] :=
          digits_roundtrip [c6, c7] (by simp)
            (by intro c hc
                simp only [List.mem_cons, List.not_mem_nil, or_false] at hc
                rcases hc with rfl | rfl <;> assumption)
        have hdd : padZeros 2 (natToDigits (digitsVal [c9, c10])) = [c9, c10] :=
          digits_roundtrip [c9, c10] (by simp)
            (by intro c hc
                simp only [List.mem_cons, List.not_mem_nil, or_false] at hc
                rcases hc with rfl | rfl <;> assumption)
        rw [h4, hmm, hdd, hh1, hh2]
        simp
      · exact Option.noConfusion h
    · exact Option.noConfusion h

theorem fromisoChars_isSome_eq (cs : List Char) (h : (fromisoChars cs).isSome = true) :
    fromisoChars cs = some (parseOr0 cs) := by
  unfold parseOr0
  cases hc : fromisoChars cs with
  | none => rw [hc] at h; exact absurd h (by simp)
  | some t => rfl

theorem foldl_min_mem {α : Type} (f : α → Nat) (t : α) (ts : List α) :
    ts.foldl (fun a x => if f x < f a then x else a) t ∈ t :: ts := by
  induction ts generalizing t with
  | nil => exact List.mem_singleton.mpr rfl
  | cons y ts ih =>
    rw [List.foldl_cons]
    rcases List.mem_cons.mp (ih (if f y < f t then y else t)) with heq | hmem
    · rw [heq]
      by_cases hc : f y < f t
      · rw [if_pos hc]
        exact List.mem_cons_of_mem _ (List.mem_cons_self _ _)
      · rw [if_neg hc]
        exact List.mem_cons_self _ _
    · exact List.mem_cons_of_mem _ (List.mem_cons_of_mem _ hmem)

theorem foldl_min_le {α : Type} (f : α → Nat) (t : α) (ts : List α) :
    ∀ x ∈ t :: ts, f (ts.foldl (fun a x => if f x < f a then x else a) t) ≤ f x := by
  induction ts generalizing t with
  | nil =>
    intro x hx
    rcases List.mem_singleton.mp hx with rfl
    exact le_refl _
  | cons y ts ih =>
    intro x hx
    rw [List.foldl_cons]
    have hhead := ih (if f y < f t then y else t) _ (List.mem_cons_self _ _)
    have hite_t : f (if f y < f t then y else t) ≤ f t := by
      by_cases hc : f y < f t
      · rw [if_pos hc]; omega
      · rw [if_neg hc]
    have hite_y : f (if f y < f t then y else t) ≤ f y := by
      by_cases hc : f y < f t
      · rw [if_pos hc]
      · rw [if_neg hc]; omega
    rcases List.mem_cons.mp hx with rfl | hx2
    · exact le_trans hhead hite_t
    · rcases List.mem_cons.mp hx2 with rfl | hx3
      · exact le_trans hhead hite_y
      · exact ih _ _ (List.mem_cons_of_mem _ hx3)

theorem foldl_max_mem {α : Type} (f : α → Nat) (t : α) (ts : List α) :
    ts.foldl (fun a x => if f a < f x then x else a) t ∈ t :: ts := by
  induction ts generalizing t with
  | nil => exact List.mem_singleton.mpr rfl
  | cons y ts ih =>
    rw [List.foldl_cons]
    rcases List.mem_cons.mp (ih (if f t < f y then y else t)) with heq | hmem
    · rw [heq]
      by_cases hc : f t < f y
      · rw [if_pos hc]
        exact List.mem_cons_of_mem _ (List.mem_cons_self _ _)
      · rw [if_neg hc]
        exact List.mem_cons_self _ _
    · exact List.mem_cons_of_mem _ (List.mem_cons_of_mem _ hmem)

theorem foldl_max_ge {α : Type} (f : α → Nat) (t : α) (ts : List α) :
    ∀ x ∈ t :: ts, f x ≤ f (ts.foldl (fun a x => if f a < f x then x else a) t) := by
  induction ts generalizing t with
  | nil =>
    intro x hx
    rcases List.mem_singleton.mp hx with rfl
    exact le_refl _
  | cons y ts ih =>
    intro x hx
    rw [List.foldl_cons]
    have hhead := ih (if f t < f y then y else t) _ (List.mem_cons_self _ _)
    have hite_t : f t ≤ f (if f t < f y then y else t) := by
      by_cases hc : f t < f y
      · rw [if_pos hc]; omega
      · rw [if_neg hc]
    have hite_y : f y ≤ f (if f t < f y then y else t) := by
      by_cases hc : f t < f y
      · rw [if_pos hc]
      · rw [if_neg hc]; omega
    rcases List.mem_cons.mp hx with rfl | hx2
    · exact le_trans hite_t hhead
    · rcases List.mem_cons.mp hx2 with rfl | hx3
      · exact le_trans hite_y hhead
      · exact ih _ _ (List.mem_cons_of_mem _ hx3)

theorem parseDates_all_ok (L : List (List Char))
    (h : ∀ cs ∈ L, (fromisoChars cs).isSome = true) :
    parseDates L = .ok (L.map parseOr0) := by
  induction L with
  | nil => rfl
  | cons cs rest ih =>
    have hcs := fromisoChars_isSome_eq cs (h cs (List.mem_cons_self _ _))
    simp only [parseDates, hcs, ih (fun x hx => h x (List.mem_cons_of_mem _ hx)), List.map_cons]

theorem is_list_of_str_map_vstr (l : List String) :
    is_list_of_str (.vlist (l.map .vstr)) = true := by
  simp [is_list_of_str, List.all_map, Function.comp]

theorem strItems_map_vstr (l : List String) :
    strItems (.vlist (l.map .vstr)) = l.map (fun s => s.data) := by
  induction l with
  | nil => rfl
  | cons s rest ih =>
    simp only [strItems, List.map_cons, List.filterMap_cons] at ih ⊢
    rw [ih]

theorem earliest_date_spec (l : List String) (hne : l ≠ [])
    (hparse : ∀ x ∈ l, (fromisoChars x.data).isSome = true) :
    ∃ m, earliest_date (.vlist (l.map .vstr)) = .ok m ∧ m ∈ l ∧
      ∀ x ∈ l, dateValNum m ≤ dateValNum x := by
  unfold earliest_date
  rw [if_neg (by rw [is_list_of_str_map_vstr]; simp), strItems_map_vstr,
    parseDates_all_ok _ (by
      intro cs hcs
      rcases List.mem_map.mp hcs with ⟨x, hx, rfl⟩
      exact hparse x hx)]
  cases l with
  | nil => exact absurd rfl hne
  | cons s0 rest =>
    simp only [List.map_cons]
    refine ⟨_, rfl, ?_, ?_⟩
    all_goals
      have hmap : parseOr0 s0.data :: ((rest.map (fun s => s.data)).map parseOr0)
          = (s0 :: rest).map (fun s => parseOr0 s.data) := by
        simp [List.map_map, Function.comp]
    · have hmem := foldl_min_mem dateEnc (parseOr0 s0.data)
        ((rest.map (fun s => s.data)).map parseOr0)
      rw [hmap] at hmem
      rcases List.mem_map.mp hmem with ⟨x, hxl, hxeq⟩
      rw [← hxeq, fromisoChars_roundtrip x.data _ (fromisoChars_isSome_eq x.data (hparse x hxl))]
      exact hxl
    · intro x hx
      have hle := foldl_min_le dateEnc (parseOr0 s0.data)
        ((rest.map (fun s => s.data)).map parseOr0)
      rw [hmap] at hle
      have hx2 : parseOr0 x.data ∈ (s0 :: rest).map (fun s => parseOr0 s.data) :=
        List.mem_map.mpr ⟨x, hx, rfl⟩
      have hres := hle _ hx2
      have hmem := foldl_min_mem dateEnc (parseOr0 s0.data)
        ((rest.map (fun s => s.data)).map parseOr0)
      rw [hmap] at hmem
      rcases List.mem_map.mp hmem with ⟨z, hzl, hzeq⟩
      show dateEnc (parseOr0 (String.mk (isoformatChars _)).data) ≤ dateValNum x
      rw [← hzeq, fromisoChars_roundtrip z.data _ (fromisoChars_isSome_eq z.data (hparse z hzl))]
      show dateEnc (parseOr0 z.data) ≤ dateValNum x
      rw [hzeq]
      exact hres

theorem latest_date_spec (l : List String) (hne : l ≠ [])
    (hparse : ∀ x ∈ l, (fromisoChars x.data).isSome = true) :
    ∃ m, latest_date (.vlist (l.map .vstr)) = .ok m ∧ m ∈ l ∧
      ∀ x ∈ l, dateValNum x ≤ dateValNum m := by
  unfold latest_date
  rw [if_neg (by rw [is_list_of_str_map_vstr]; simp), strItems_map_vstr,
    parseDates_all_ok _ (by
      intro cs hcs
      rcases List.mem_map.mp hcs with ⟨x, hx, rfl⟩
      exact hparse x hx)]
  cases l with
  | nil => exact absurd rfl hne
  | cons s0 rest =>
    simp only [List.map_cons]
    refine ⟨_, rfl, ?_, ?_⟩
    all_goals
      have hmap : parseOr0 s0.data :: ((rest.map (fun s => s.data)).map parseOr0)
          = (s0 :: rest).map (fun s => parseOr0 s.data) := by
        simp [List.map_map, Function.comp]
    · have hmem := foldl_max_mem dateEnc (parseOr0 s0.data)
        ((rest.map (fun s => s.data)).map parseOr0)
      rw [hmap] at hmem
      rcases List.mem_map.mp hmem with ⟨x, hxl, hxeq⟩
      rw [← hxeq, fromisoChars_roundtrip x.data _ (fromisoChars_isSome_eq x.data (hparse x hxl))]
      exact hxl
    · intro x hx
      have hle := foldl_max_ge dateEnc (parseOr0 s0.data)
        ((rest.map (fun s => s.data)).map parseOr0)
      rw [hmap] at hle
      have hx2 : parseOr0 x.data ∈ (s0 :: rest).map (fun s => parseOr0 s.data) :=
        List.mem_map.mpr ⟨x, hx, rfl⟩
      have hres := hle _ hx2
      have hmem := foldl_max_mem dateEnc (parseOr0 s0.data)
        ((rest.map (fun s => s.data)).map parseOr0)
      rw [hmap] at hmem
      rcases List.mem_map.mp hmem with ⟨z, hzl, hzeq⟩
      show dateValNum x ≤ dateEnc (parseOr0 (String.mk (isoformatChars _)).data)
      rw [← hzeq, fromisoChars_roundtrip z.data _ (fromisoChars_isSome_eq z.data (hparse z hzl))]
      show dateValNum x ≤ dateEnc (parseOr0 z.data)
      rw [hzeq]
      exact hres

/-- C6: on a non-empty list of canonical ISO YYYY-MM-DD strings,
earliest_date returns a member chronologically at most every element and
latest_date a member at least every element; both raise on an empty list and
on any argument that is not a list of strings (including a plain string,
whose character iteration can never parse). -/
theorem C6_earliest_latest_date :
    (∀ l : List String, l ≠ [] → (∀ x ∈ l, (fromisoChars x.data).isSome = true) →
      (∃ m, earliest_date (.vlist (l.map .vstr)) = .ok m ∧ m ∈ l ∧
        ∀ x ∈ l, dateValNum m ≤ dateValNum x)
      ∧ (∃ M, latest_date (.vlist (l.map .vstr)) = .ok M ∧ M ∈ l ∧
        ∀ x ∈ l, dateValNum x ≤ dateValNum M))
    ∧ earliest_date (.vlist []) = .error (.valueError "min() arg is an empty sequence")
    ∧ latest_date (.vlist []) = .error (.valueError "max() arg is an empty sequence")
    ∧ (∀ v : PyVal, is_list_of_str v = false →
      earliest_date v = .error (.valueError "date_list must be a list of strings")
      ∧ latest_date v = .error (.valueError "date_list must be a list of strings"))
    ∧ (∀ s : String, (∃ e, earliest_date (.vstr s) = .error e)
        ∧ (∃ e, latest_date (.vstr s) = .error e)) := by
  refine ⟨fun l hne hp => ⟨earliest_date_spec l hne hp, latest_date_spec l hne hp⟩,
    by decide, by decide, ?_, ?_⟩
  · intro v hv
    constructor
    · unfold earliest_date
      rw [if_pos hv]
    · unfold latest_date
      rw [if_pos hv]
  · intro s
    constructor
    · unfold earliest_date
      rw [if_neg (by simp [is_list_of_str])]
      cases hd : s.data with
      | nil =>
        show (∃ e, (match parseDates (strItems (.vstr s)) with
          | .error e => Except.error e
          | .ok [] => Except.error (.valueError "min() arg is an empty sequence")
          | .ok (t :: ts) => Except.ok (String.mk (isoformatChars
              (ts.foldl (fun a x => if dateEnc x < dateEnc a then x else a) t)))) = .error e)
        have : strItems (.vstr s) = [] := by
          show s.data.map (fun c => [c]) = []
          rw [hd]
          rfl
        rw [this]
        exact ⟨_, rfl⟩
      | cons c cs =>
        have hitems : strItems (.vstr s) = [c] :: cs.map (fun c => [c]) := by
          show s.data.map (fun c => [c]) = _
          rw [hd]
          rfl
        rw [hitems]
        have hp : parseDates ([c] :: cs.map (fun c => [c]))
            = .error (.valueError "Invalid isoformat string") := by
          simp only [parseDates, fromisoChars_not_ten [c] (by simp)]
        rw [hp]
        exact ⟨_, rfl⟩
    · unfold latest_date
      rw [if_neg (by simp [is_list_of_str])]
      cases hd : s.data with
      | nil =>
        have : strItems (.vstr s) = [] := by
          show s.data.map (fun c => [c]) = []
          rw [hd]
          rfl
        rw [this]
        exact ⟨_, rfl⟩
      | cons c cs =>
        have hitems : strItems (.vstr s) = [c] :: cs.map (fun c => [c]) := by
          show s.data.map (fun c => [c]) = _
          rw [hd]
          rfl
        rw [hitems]
        have hp : parseDates ([c] :: cs.map (fun c => [c]))
            = .error (.valueError "Invalid isoformat string") := by
          simp only [parseDates, fromisoChars_not_ten [c] (by simp)]
        rw [hp]
        exact ⟨_, rfl⟩

/-- Witness for C6 at the concrete list ["2024-01-01", "1993-02-07"]. -/
theorem C6_earliest_latest_date_witness :
    (∃ m, earliest_date (.vlist (["2024-01-01", "1993-02-07"].map .vstr)) = .ok m ∧
      m ∈ ["2024-01-01", "1993-02-07"] ∧
      ∀ x ∈ ["2024-01-01", "1993-02-07"], dateValNum m ≤ dateValNum x)
    ∧ ∃ e, earliest_date (.vstr "oops") = .error e :=
  ⟨(C6_earliest_latest_date.1 ["2024-01-01", "1993-02-07"] (by decide) (by decide)).1,
   (C6_earliest_latest_date.2.2.2.2 "oops").1⟩

example : normalize_d_M_y (.vstr "1st Feb 2010") = some "2010-02-01" := by decide
example : normalize_d_M_y (.vstr "25 Dec 1990") = some "1990-12-25" := by decide
example : normalize_d_M_y (.vstr "9 dec 2000") = some "2000-12-09" := by decide
example : normalize_d_M_y (.vstr "30 10 1800") = none := by decide
example : normalize_d_M_y (.vstr "31 February 9999") = none := by decide
example : normalize_d_M_y (.vstr "1st  Feb 2010") = none := by decide
example : normalize_d_M_y (.vstr "x1 Feb 2010") = none := by decide

/-- C7: normalize_d_M_y never raises: it is total, maps "1st Feb 2010",
"25 Dec 1990" and "9 dec 2000" to their canonical dates (month names matched
case-insensitively through the month-name table), and returns the failure
marker None on every input it cannot normalize: non-strings, inputs that do
not split into exactly three space-separated tokens, unknown month names, and
calendar-invalid assembled dates (every some-result parses as a real
calendar date, and "31 February 9999" returns None). -/
theorem C7_normalize_d_M_y_contract :
    normalize_d_M_y (.vstr "1st Feb 2010") = some "2010-02-01"
    ∧ normalize_d_M_y (.vstr "25 Dec 1990") = some "1990-12-25"
    ∧ normalize_d_M_y (.vstr "9 dec 2000") = some "2000-12-09"
    ∧ normalize_d_M_y (.vstr "31 February 9999") = none
    ∧ (∀ v : PyVal, (∀ t, v ≠ .vstr t) → normalize_d_M_y v = none)
    ∧ (∀ s : String, (pySplitChar ' ' s.data).length ≠ 3 → normalize_d_M_y (.vstr s) = none)
    ∧ (∀ d M y : List Char, monthLookup (pyCapitalize M) = none → dMYSegs [d, M, y] = none)
    ∧ (∀ v out, normalize_d_M_y v = some out → (fromisoChars out.data).isSome = true) := by
  refine ⟨by decide, by decide, by decide, by decide, ?_, ?_, ?_, ?_⟩
  · intro v hv
    cases v with
    | vstr t => exact absurd rfl (hv t)
    | vint n => rfl
    | vnone => rfl
    | vlist xs => rfl
  · intro s hlen
    show dMYSegs (pySplitChar ' ' s.data) = none
    rcases hsp : pySplitChar ' ' s.data with _ | ⟨a, _ | ⟨b, _ | ⟨c, _ | ⟨d, r⟩⟩⟩⟩
    · rfl
    · rfl
    · rfl
    · rw [hsp] at hlen
      exact (hlen rfl).elim
    · rfl
  · intro d M y hm
    simp only [dMYSegs]
    cases hrun : findDigitRun false d with
    | none => simp only [hrun]
    | some run => simp only [hrun, hm]
  · intro v out h
    cases v with
    | vint n => exact absurd h (by simp [normalize_d_M_y])
    | vnone => exact absurd h (by simp [normalize_d_M_y])
    | vlist xs => exact absurd h (by simp [normalize_d_M_y])
    | vstr s =>
      simp only [normalize_d_M_y] at h
      rcases hsp : pySplitChar ' ' s.data with _ | ⟨a, _ | ⟨b, _ | ⟨c, _ | ⟨d, r⟩⟩⟩⟩ <;>
        rw [hsp] at h
      · exact absurd h (by simp [dMYSegs])
      · exact absurd h (by simp [dMYSegs])
      · exact absurd h (by simp [dMYSegs])
      · simp only [dMYSegs] at h
        split at h
        · exact absurd h (by simp)
        · split at h
          · exact absurd h (by simp)
          · split at h
            · rename_i t hfrom
              have hout : out = String.mk _ := ((Option.some.injEq _ _).mp h).symm
              rw [hout]
              show (fromisoChars _).isSome = true
              rw [hfrom]
              rfl
            · exact absurd h (by simp)
      · exact absurd h (by simp [dMYSegs])

/-- Witness for C7: the non-string conjunct applied at the integer 0, and the
soundness conjunct applied at "1st Feb 2010". -/
theorem C7_normalize_d_M_y_contract_witness :
    normalize_d_M_y (.vint 0) = none
    ∧ (fromisoChars ("2010-02-01" : String).data).isSome = true :=
  ⟨C7_normalize_d_M_y_contract.2.2.2.2.1 (.vint 0) (fun t => by simp),
   C7_normalize_d_M_y_contract.2.2.2.2.2.2.2 (.vstr "1st Feb 2010") "2010-02-01" (by decide)⟩

example : get_d_M_y (.vstr "Received 18th October 2023; Accepted 05 Jun 2060")
    = some ["18th October 2023", "05 Jun 2060"] := by decide
example : get_d_M_y (.vstr "31 February 9999") = some ["31 February 9999"] := by decide
example : get_d_M_y (.vstr "No dates in here.") = none := by decide
example : get_d_M_y (.vstr "1st dec 0000") = some ["1st dec 0000"] := by decide
example : get_d_M_y (.vstr "x18th October 2023") = none := by decide
example : get_d_M_y (.vstr "18th October 20235") = none := by decide
example : get_d_M_y (.vstr "32 May 2000") = none := by decide

/-! ## get_d_M_y lemmas -/

theorem matchDMY_nil (b : Bool) : matchDMY b [] = none := by
  cases b <;> rfl

theorem parseDay_le (l : List Char) (k : Nat) (h : parseDay l = some k) : k ≤ l.length := by
  unfold parseDay at h
  repeat' split at h
  all_goals first
    | exact Option.noConfusion h
    | (injection h with h
       simp only [List.length_cons, List.length_nil]
       omega)

theorem afterDay_le (l : List Char) (k : Nat) (h : afterDay l = some k) : k ≤ l.length := by
  unfold afterDay at h
  repeat' split at h
  all_goals first
    | exact Option.noConfusion h
    | (injection h with h
       simp only [List.length_cons, List.length_nil]
       omega)

theorem matchMonth_le (r : List Char) (ml : Nat) (h : matchMonth r = some ml) :
    ml + 1 ≤ r.length := by
  unfold matchMonth at h
  rcases List.exists_of_findSome?_eq_some h with ⟨nm, _, hc⟩
  unfold monthCheck at hc
  split at hc
  · rename_i hguard
    obtain ⟨hpre, hsp⟩ := hguard
    have hml : ml = nm.data.length := (Option.some.injEq _ _ ▸ hc).symm
    subst hml
    cases hd : r.drop nm.data.length with
    | nil => rw [hd] at hsp; exact absurd hsp (by simp)
    | cons x xs =>
      have hlen : (r.drop nm.data.length).length = r.length - nm.data.length :=
        List.length_drop _ _
      rw [hd] at hlen
      simp only [List.length_cons] at hlen
      omega
  · exact absurd hc (by simp)

theorem yearAt_len (l : List Char) (h : yearAt l = true) : 4 ≤ l.length := by
  match l with
  | [] => exact absurd h (by simp [yearAt])
  | [a] => exact absurd h (by simp [yearAt])
  | [a, b] => exact absurd h (by simp [yearAt])
  | [a, b, c] => exact absurd h (by simp [yearAt])
  | a :: b :: c :: d :: rest => simp

theorem matchDMY_le (b : Bool) (l : List Char) (n : Nat) (h : matchDMY b l = some n) :
    n ≤ l.length := by
  unfold matchDMY at h
  split at h
  · exact absurd h (by simp)
  · split at h
    · exact absurd h (by simp)
    · rename_i dl hdl
      split at h
      · exact absurd h (by simp)
      · rename_i al hal
        split at h
        · exact absurd h (by simp)
        · rename_i ml hml
          split at h
          · rename_i hyear
            injection h with h
            have h1 := parseDay_le l dl hdl
            have h2 := afterDay_le _ al hal
            have h3 := matchMonth_le _ ml hml
            have h4 := yearAt_len _ hyear
            rw [List.length_drop] at h2 h3 h4
            omega
          · exact absurd h (by simp)

theorem scanDMY_sound (fuel : Nat) : ∀ (prevW : Bool) (l : List Char),
    DMYMatchesAt prevW l (scanDMY fuel prevW l) := by
  induction fuel with
  | zero => intro prevW l; exact DMYMatchesAt.nil _ _
  | succ f ih =>
    intro prevW l
    cases l with
    | nil => exact DMYMatchesAt.nil _ _
    | cons c t =>
      cases hm : matchDMY prevW (c :: t) with
      | none =>
        simp only [scanDMY, hm]
        exact DMYMatchesAt.skip _ _ _ _ (ih _ t)
      | some n =>
        simp only [scanDMY, hm]
        have hn : n ≤ (c :: t).length := matchDMY_le _ _ _ hm
        have hlen : ((c :: t).take n).length = n := by
          rw [List.length_take]
          omega
        have hmatch : matchDMY prevW ((c :: t).take n ++ (c :: t).drop n)
            = some ((c :: t).take n).length := by
          rw [List.take_append_drop, hlen]
          exact hm
        have := DMYMatchesAt.here prevW ((c :: t).take n) ((c :: t).drop n)
          (scanDMY f true ((c :: t).drop n)) hmatch (ih true _)
        rw [List.take_append_drop] at this
        exact this

theorem scanPrev_cons (prevW : Bool) (c : Char) (t : List Char) (i : Nat) :
    scanPrev prevW (c :: t) (i + 1) = scanPrev (isWordChar c) t i := by
  cases i with
  | zero => rfl
  | succ j => rfl

theorem scanDMY_nil_iff (fuel : Nat) : ∀ (prevW : Bool) (l : List Char), l.length < fuel →
    (scanDMY fuel prevW l = [] ↔
      ∀ i, matchDMY (scanPrev prevW l i) (l.drop i) = none) := by
  induction fuel with
  | zero => intro prevW l hf; omega
  | succ f ih =>
    intro prevW l hf
    cases l with
    | nil =>
      simp only [scanDMY]
      constructor
      · intro _ i
        rw [List.drop_nil]
        exact matchDMY_nil _
      · intro _
        trivial
    | cons c t =>
      cases hm : matchDMY prevW (c :: t) with
      | some n =>
        simp only [scanDMY, hm]
        constructor
        · intro hcontra
          exact absurd hcontra (by simp)
        · intro hall
          have h0 := hall 0
          rw [show scanPrev prevW (c :: t) 0 = prevW from rfl, List.drop_zero, hm] at h0
          exact absurd h0 (by simp)
      | none =>
        simp only [scanDMY, hm]
        rw [ih (isWordChar c) t (by simp only [List.length_cons] at hf; omega)]
        constructor
        · intro hall i
          cases i with
          | zero => exact hm
          | succ j =>
            rw [scanPrev_cons]
            exact hall j
        · intro hall j
          have := hall (j + 1)
          rw [scanPrev_cons] at this
          exact this

theorem get_d_M_y_vstr_none_iff (s : String) :
    get_d_M_y (.vstr s) = none ↔ scanDMY (s.data.length + 1) false s.data = [] := by
  simp only [get_d_M_y]
  cases h : scanDMY (s.data.length + 1) false s.data with
  | nil => simp
  | cons a as => simp

/-- C8: get_d_M_y is a syntactic recognizer: on the spec's example it returns
both date substrings in left-to-right order; a calendar-invalid fragment like
"31 February 9999" is still recognized; a text with no date-like substring
(and any non-string input) yields None; in general the result is None exactly
when no position of the text carries an anchored d-M-y match, and any
returned token list is non-empty and consists of disjoint substrings in
left-to-right order of appearance, each an anchored match of the pattern in
its context. -/
theorem C8_get_d_M_y_recognizer :
    get_d_M_y (.vstr "Received 18th October 2023; Accepted 05 Jun 2060")
      = some ["18th October 2023", "05 Jun 2060"]
    ∧ get_d_M_y (.vstr "31 February 9999") = some ["31 February 9999"]
    ∧ get_d_M_y (.vstr "No dates in here.") = none
    ∧ (∀ v : PyVal, (∀ t, v ≠ .vstr t) → get_d_M_y v = none)
    ∧ (∀ s : String, get_d_M_y (.vstr s) = none ↔
        ∀ i, matchDMY (scanPrev false s.data i) (s.data.drop i) = none)
    ∧ (∀ (s : String) (toks : List String), get_d_M_y (.vstr s) = some toks →
        toks ≠ [] ∧ DMYMatchesAt false s.data (toks.map (fun t => t.data))) := by
  refine ⟨by decide, by decide, by decide, ?_, ?_, ?_⟩
  · intro v hv
    cases v with
    | vstr t => exact absurd rfl (hv t)
    | vint n => rfl
    | vnone => rfl
    | vlist xs => rfl
  · intro s
    rw [get_d_M_y_vstr_none_iff s]
    exact scanDMY_nil_iff (s.data.length + 1) false s.data (by omega)
  · intro s toks h
    simp only [get_d_M_y] at h
    cases hs : scanDMY (s.data.length + 1) false s.data with
    | nil =>
      rw [hs] at h
      exact absurd h (by simp)
    | cons a as =>
      rw [hs] at h
      have htoks : toks = (a :: as).map (fun t => String.mk t) := by
        simpa using h.symm
      constructor
      · rw [htoks]
        simp
      · have hsound := scanDMY_sound (s.data.length + 1) false s.data
        rw [hs] at hsound
        have hmaps : toks.map (fun t => t.data) = a :: as := by
          rw [htoks, List.map_map]
          have : ((fun t : String => t.data) ∘ fun t : List Char => String.mk t)
              = fun t : List Char => t := rfl
          rw [this]
          exact List.map_id _
        rw [hmaps]
        exact hsound

/-- Witness for C8: the non-string conjunct at the integer 7, and the
order-and-soundness conjunct at the spec's example text. -/
theorem C8_get_d_M_y_recognizer_witness :
    get_d_M_y (.vint 7) = none
    ∧ (["18th October 2023", "05 Jun 2060"] ≠ ([] : List String)
      ∧ DMYMatchesAt false ("Received 18th October 2023; Accepted 05 Jun 2060" : String).data
        ((["18th October 2023", "05 Jun 2060"] : List String).map (fun t => t.data))) :=
  ⟨C8_get_d_M_y_recognizer.2.2.2.1 (.vint 7) (fun t => by simp),
   C8_get_d_M_y_recognizer.2.2.2.2.2 "Received 18th October 2023; Accepted 05 Jun 2060"
     ["18th October 2023", "05 Jun 2060"] (by decide)⟩

example : prepare_filters { min_published := some (.vstr "2000")
                            max_published := some (.vstr "2000-06") } =
    .ok ("\nWHERE normalized_published >= ?\nAND normalized_published <= ?",
      ["2000-01-01", "2000-06-01"]) := by decide

example : prepare_filters {} = .ok ("", []) := by decide

example : prepare_filters { normalized_publisher := some (.vlist [.vstr "A", .vstr "B"])
                            min_received := some (.vstr "1995") } =
    .ok ("\nWHERE normalized_publisher IN (?, ?)\nAND normalized_received >= ?",
      ["A", "B", "1995-01-01"]) := by decide

example : prepare_filters { min_received := some (.vstr "not-a-date") } =
    .error (.valueError "Invalid minimum received date.") := by decide

example : prepare_filters { normalized_publisher := some (.vlist [.vstr "A", .vint 3]) } =
    .error (.valueError "Invalid publishers filter; must be a (list of) string(s).") := by decide

/-- C1: every supplied date bound goes through normalize_date_2iso and
compiles to a range comparison (>= for min, <= for max) on the matching
normalized_* column, with arguments appended in clause order; in particular
min_published="2000" with max_published="2000-06" compiles to the two-clause
predicate with arguments ["2000-01-01", "2000-06-01"], and that predicate
holds for a row exactly when its normalized published date lies in the
inclusive range. -/
theorem C1_date_bound_compilation :
    (∀ v d, normalize_date_2iso v = .ok d →
      prepare_filters { min_received := some v } =
        .ok ("\nWHERE normalized_received >= ?", [d]))
    ∧ (∀ v d, normalize_date_2iso v = .ok d →
      prepare_filters { max_received := some v } =
        .ok ("\nWHERE normalized_received <= ?", [d]))
    ∧ (∀ v d, normalize_date_2iso v = .ok d →
      prepare_filters { min_accepted := some v } =
        .ok ("\nWHERE normalized_accepted >= ?", [d]))
    ∧ (∀ v d, normalize_date_2iso v = .ok d →
      prepare_filters { max_accepted := some v } =
        .ok ("\nWHERE normalized_accepted <= ?", [d]))
    ∧ (∀ v d, normalize_date_2iso v = .ok d →
      prepare_filters { min_published := some v } =
        .ok ("\nWHERE normalized_published >= ?", [d]))
    ∧ (∀ v d, normalize_date_2iso v = .ok d →
      prepare_filters { max_published := some v } =
        .ok ("\nWHERE normalized_published <= ?", [d]))
    ∧ (∀ v1 v2 d1 d2, normalize_date_2iso v1 = .ok d1 → normalize_date_2iso v2 = .ok d2 →
      prepare_filters { min_published := some v1
                        max_published := some v2 } =
        .ok ("\nWHERE normalized_published >= ?\nAND normalized_published <= ?", [d1, d2]))
    ∧ prepare_filters { min_published := some (.vstr "2000")
                        max_published := some (.vstr "2000-06") } =
        .ok ("\nWHERE normalized_published >= ?\nAND normalized_published <= ?",
          ["2000-01-01", "2000-06-01"])
    ∧ (∀ pub : Option String,
        (sqlGeClauseHolds pub "2000-01-01" ∧ sqlLeClauseHolds pub "2000-06-01")
        ↔ ∃ d, pub = some d ∧ charListLe ("2000-01-01" : String).data d.data = true
            ∧ charListLe d.data ("2000-06-01" : String).data = true) := by
  refine ⟨?_, ?_, ?_, ?_, ?_, ?_, ?_, by decide, ?_⟩
  · intro v d hv
    simp only [prepare_filters, stepIn, stepDate, stepInLast, hv]
    rfl
  · intro v d hv
    simp only [prepare_filters, stepIn, stepDate, stepInLast, hv]
    rfl
  · intro v d hv
    simp only [prepare_filters, stepIn, stepDate, stepInLast, hv]
    rfl
  · intro v d hv
    simp only [prepare_filters, stepIn, stepDate, stepInLast, hv]
    rfl
  · intro v d hv
    simp only [prepare_filters, stepIn, stepDate, stepInLast, hv]
    rfl
  · intro v d hv
    simp only [prepare_filters, stepIn, stepDate, stepInLast, hv]
    rfl
  · intro v1 v2 d1 d2 hv1 hv2
    simp only [prepare_filters, stepIn, stepDate, stepInLast, hv1, hv2]
    rfl
  · intro pub
    constructor
    · rintro ⟨⟨a, ha, hga⟩, ⟨b, hb, hlb⟩⟩
      rw [ha] at hb
      injection hb with hb
      subst hb
      exact ⟨a, ha, hga, hlb⟩
    · rintro ⟨a, ha, h1, h2⟩
      exact ⟨⟨a, ha, h1⟩, ⟨a, ha, h2⟩⟩

/-- Witness for C1, applying the min_received conjunct at "1995" and the
two-bound conjunct at the spec's concrete inputs. -/
theorem C1_date_bound_compilation_witness :
    prepare_filters { min_received := some (.vstr "1995") } =
      .ok ("\nWHERE normalized_received >= ?", ["1995-01-01"])
    ∧ prepare_filters { min_published := some (.vstr "2000")
                        max_published := some (.vstr "2000-06") } =
      .ok ("\nWHERE normalized_published >= ?\nAND normalized_published <= ?",
        ["2000-01-01", "2000-06-01"])
    ∧ (sqlGeClauseHolds (some "2000-03-15") "2000-01-01"
        ∧ sqlLeClauseHolds (some "2000-03-15") "2000-06-01") :=
  ⟨C1_date_bound_compilation.1 (.vstr "1995") "1995-01-01" (by decide),
   C1_date_bound_compilation.2.2.2.2.2.2.1 (.vstr "2000") (.vstr "2000-06")
     "2000-01-01" "2000-06-01" (by decide) (by decide),
   (C1_date_bound_compilation.2.2.2.2.2.2.2.2 (some "2000-03-15")).mpr
     ⟨"2000-03-15", rfl, by decide, by decide⟩⟩

/-! ## All-or-nothing failure of prepare_filters -/

theorem stepIn_err (colName errMsg : String) (v? : Option PyVal) (st : FState)
    (h : MalList v?) : stepIn colName errMsg v? st = .error (.valueError errMsg) := by
  rcases h with ⟨v, rfl, hv⟩
  simp only [stepIn, hv, if_pos]

theorem stepInLast_err (colName errMsg : String) (v? : Option PyVal) (st : FState)
    (h : MalList v?) : stepInLast colName errMsg v? st = .error (.valueError errMsg) := by
  rcases h with ⟨v, rfl, hv⟩
  simp only [stepInLast, hv, if_pos]

theorem stepDate_err (colName cmp errMsg : String) (v? : Option PyVal) (st : FState)
    (h : MalDate v?) : stepDate colName cmp errMsg v? st = .error (.valueError errMsg) := by
  rcases h with ⟨v, e, rfl, hv⟩
  simp only [stepDate, hv]

theorem stepIn_ok (colName errMsg : String) (v? : Option PyVal) (st : FState)
    (h : ¬MalList v?) : ∃ st2, stepIn colName errMsg v? st = .ok st2 := by
  cases v? with
  | none => exact ⟨st, rfl⟩
  | some v =>
    cases hv : is_list_of_str v with
    | false => exact absurd ⟨v, rfl, hv⟩ h
    | true =>
      cases hres : stepIn colName errMsg (some v) st with
      | ok st2 => exact ⟨st2, rfl⟩
      | error e => simp [stepIn, hv] at hres

theorem stepInLast_ok (colName errMsg : String) (v? : Option PyVal) (st : FState)
    (h : ¬MalList v?) : ∃ st2, stepInLast colName errMsg v? st = .ok st2 := by
  cases v? with
  | none => exact ⟨st, rfl⟩
  | some v =>
    cases hv : is_list_of_str v with
    | false => exact absurd ⟨v, rfl, hv⟩ h
    | true =>
      cases hres : stepInLast colName errMsg (some v) st with
      | ok st2 => exact ⟨st2, rfl⟩
      | error e => simp [stepInLast, hv] at hres

theorem stepDate_ok (colName cmp errMsg : String) (v? : Option PyVal) (st : FState)
    (h : ¬MalDate v?) : ∃ st2, stepDate colName cmp errMsg v? st = .ok st2 := by
  cases v? with
  | none => exact ⟨st, rfl⟩
  | some v =>
    cases hv : normalize_date_2iso v with
    | error e => exact absurd ⟨v, e, rfl, hv⟩ h
    | ok d =>
      cases hres : stepDate colName cmp errMsg (some v) st with
      | ok st2 => exact ⟨st2, rfl⟩
      | error e => simp [stepDate, hv] at hres

/-- C2: whenever any supplied criterion is malformed (a list-type criterion
that is not a (list of) string(s), or a date bound rejected by
normalize_date_2iso), prepare_filters raises a ValueError whose message names
a malformed criterion, and no clause/argument pair is returned: compilation
is all-or-nothing (the Except result carries either the full pair or only
the error). -/
theorem C2_filter_compilation_all_or_nothing (k : FilterKwargs)
    (hmal : MalList k.normalized_publisher ∨ MalList k.normalized_journal
      ∨ MalDate k.min_received ∨ MalDate k.max_received
      ∨ MalDate k.min_accepted ∨ MalDate k.max_accepted
      ∨ MalDate k.min_published ∨ MalDate k.max_published
      ∨ MalList k.publication_type) :
    ∃ msg, prepare_filters k = .error (.valueError msg)
      ∧ ((MalList k.normalized_publisher ∧ msg = "Invalid publishers filter; must be a (list of) string(s).")
        ∨ (MalList k.normalized_journal ∧ msg = "Invalid journals filter; must be a (list of) string(s).")
        ∨ (MalDate k.min_received ∧ msg = "Invalid minimum received date.")
        ∨ (MalDate k.max_received ∧ msg = "Invalid maximum received date.")
        ∨ (MalDate k.min_accepted ∧ msg = "Invalid minimum accepted date.")
        ∨ (MalDate k.max_accepted ∧ msg = "Invalid maximum accepted date.")
        ∨ (MalDate k.min_published ∧ msg = "Invalid minimum published date.")
        ∨ (MalDate k.max_published ∧ msg = "Invalid maximum published date.")
        ∨ (MalList k.publication_type ∧ msg = "Invalid publication type filter; must be a (list of) string(s).")) := by
  by_cases h1 : MalList k.normalized_publisher
  · refine ⟨_, ?_, Or.inl ⟨h1, rfl⟩⟩
    simp only [prepare_filters, stepIn_err "normalized_publisher" "Invalid publishers filter; must be a (list of) string(s)." _ _ h1]
  · obtain ⟨st1, hst1⟩ := stepIn_ok "normalized_publisher" "Invalid publishers filter; must be a (list of) string(s)." k.normalized_publisher initFState h1
    by_cases h2 : MalList k.normalized_journal
    · refine ⟨_, ?_, Or.inr (Or.inl ⟨h2, rfl⟩)⟩
      simp only [prepare_filters, hst1, stepIn_err "normalized_journal" "Invalid journals filter; must be a (list of) string(s)." _ _ h2]
    · obtain ⟨st2, hst2⟩ := stepIn_ok "normalized_journal" "Invalid journals filter; must be a (list of) string(s)." k.normalized_journal st1 h2
      by_cases h3 : MalDate k.min_received
      · refine ⟨_, ?_, Or.inr (Or.inr (Or.inl ⟨h3, rfl⟩))⟩
        simp only [prepare_filters, hst1, hst2, stepDate_err "normalized_received" ">=" "Invalid minimum received date." _ _ h3]
      · obtain ⟨st3, hst3⟩ := stepDate_ok "normalized_received" ">=" "Invalid minimum received date." k.min_received st2 h3
        by_cases h4 : MalDate k.max_received
        · refine ⟨_, ?_, Or.inr (Or.inr (Or.inr (Or.inl ⟨h4, rfl⟩)))⟩
          simp only [prepare_filters, hst1, hst2, hst3, stepDate_err "normalized_received" "<=" "Invalid maximum received date." _ _ h4]
        · obtain ⟨st4, hst4⟩ := stepDate_ok "normalized_received" "<=" "Invalid maximum received date." k.max_received st3 h4
          by_cases h5 : MalDate k.min_accepted
          · refine ⟨_, ?_, Or.inr (Or.inr (Or.inr (Or.inr (Or.inl ⟨h5, rfl⟩))))⟩
            simp only [prepare_filters, hst1, hst2, hst3, hst4, stepDate_err "normalized_accepted" ">=" "Invalid minimum accepted date." _ _ h5]
          · obtain ⟨st5, hst5⟩ := stepDate_ok "normalized_accepted" ">=" "Invalid minimum accepted date." k.min_accepted st4 h5
            by_cases h6 : MalDate k.max_accepted
            · refine ⟨_, ?_, Or.inr (Or.inr (Or.inr (Or.inr (Or.inr (Or.inl ⟨h6, rfl⟩)))))⟩
              simp only [prepare_filters, hst1, hst2, hst3, hst4, hst5, stepDate_err "normalized_accepted" "<=" "Invalid maximum accepted date." _ _ h6]
            · obtain ⟨st6, hst6⟩ := stepDate_ok "normalized_accepted" "<=" "Invalid maximum accepted date." k.max_accepted st5 h6
              by_cases h7 : MalDate k.min_published
              · refine ⟨_, ?_, Or.inr (Or.inr (Or.inr (Or.inr (Or.inr (Or.inr (Or.inl ⟨h7, rfl⟩))))))⟩
                simp only [prepare_filters, hst1, hst2, hst3, hst4, hst5, hst6, stepDate_err "normalized_published" ">=" "Invalid minimum published date." _ _ h7]
              · obtain ⟨st7, hst7⟩ := stepDate_ok "normalized_published" ">=" "Invalid minimum published date." k.min_published st6 h7
                by_cases h8 : MalDate k.max_published
                · refine ⟨_, ?_, Or.inr (Or.inr (Or.inr (Or.inr (Or.inr (Or.inr (Or.inr (Or.inl ⟨h8, rfl⟩)))))))⟩
                  simp only [prepare_filters, hst1, hst2, hst3, hst4, hst5, hst6, hst7, stepDate_err "normalized_published" "<=" "Invalid maximum published date." _ _ h8]
                · obtain ⟨st8, hst8⟩ := stepDate_ok "normalized_published" "<=" "Invalid maximum published date." k.max_published st7 h8
                  by_cases h9 : MalList k.publication_type
                  · refine ⟨_, ?_, Or.inr (Or.inr (Or.inr (Or.inr (Or.inr (Or.inr (Or.inr (Or.inr (⟨h9, rfl⟩))))))))⟩
                    simp only [prepare_filters, hst1, hst2, hst3, hst4, hst5, hst6, hst7, hst8, stepInLast_err "publication_type" "Invalid publication type filter; must be a (list of) string(s)." _ _ h9]
                  · rcases hmal with hc | hc | hc | hc | hc | hc | hc | hc | hc
                    · exact absurd hc h1
                    · exact absurd hc h2
                    · exact absurd hc h3
                    · exact absurd hc h4
                    · exact absurd hc h5
                    · exact absurd hc h6
                    · exact absurd hc h7
                    · exact absurd hc h8
                    · exact absurd hc h9

/-- Witness for C2: a malformed minimum received date makes prepare_filters
fail with the corresponding ValueError. -/
theorem C2_filter_compilation_all_or_nothing_witness :
    MalDate (some (PyVal.vstr "not-a-date")) ∧
    ∃ msg, prepare_filters { min_received := some (PyVal.vstr "not-a-date") }
        = Except.error (PyErr.valueError msg) := by
  have hm : MalDate (some (PyVal.vstr "not-a-date")) := ⟨PyVal.vstr "not-a-date",
    PyErr.valueError "Invalid year passed; must be in YYYY, MM-YYYY or DD-MM-YYYY format; the year must be positive.",
    rfl, by decide⟩
  refine ⟨hm, ?_⟩
  obtain ⟨msg, hmsg, _⟩ := C2_filter_compilation_all_or_nothing
    { min_received := some (PyVal.vstr "not-a-date") } (Or.inr (Or.inr (Or.inl hm)))
  exact ⟨msg, hmsg⟩

theorem string_data_inj {a b : String} (h : a.data = b.data) : a = b := by
  cases a; cases b; exact congrArg String.mk h

theorem lex_sandwich {α β : Type} [LinearOrder α] [PartialOrder β]
    {a b c : α} {x y z : β}
    (h1 : (toLex (a, x) : α ×ₗ β) ≤ toLex (b, y))
    (h2 : (toLex (b, y) : α ×ₗ β) ≤ toLex (c, z)) (hac : a = c) :
    b = a ∧ x ≤ y := by
  subst hac
  rw [Prod.Lex.le_iff] at h1 h2
  dsimp only at h1 h2
  rcases h1 with h1 | ⟨hab, hxy⟩
  · rcases h2 with h2 | ⟨hba, _⟩
    · exact absurd (lt_trans h1 h2) (lt_irrefl a)
    · exact absurd (hba ▸ h1) (lt_irrefl a)
  · exact ⟨hab.symm, hxy⟩

theorem dateKey_none_le {x : Option String} (h : dateKey none ≤ dateKey x) : x = none := by
  cases x with
  | none => rfl
  | some d =>
    rw [dateKey, dateKey, Prod.Lex.le_iff] at h
    dsimp only at h
    rcases h with h | ⟨h, _⟩
    · exact absurd h (by decide)
    · exact absurd h (by decide)

theorem pubOrd_desc {p q : FilteredPub} (h : pubOrd p q) (hp : p.publisher = q.publisher)
    (hj : p.journal = q.journal) :
    (toLex (dateKey p.normalized_received, dateKey p.normalized_accepted) :
      (Bool ×ₗ List Char) ×ₗ (Bool ×ₗ List Char)) ≤
      toLex (dateKey q.normalized_received, dateKey q.normalized_accepted) := by
  rw [pubOrd, pubKey, pubKey, Prod.Lex.le_iff] at h
  rcases h with h | ⟨_, h⟩
  · exact absurd (hp ▸ h) (lt_irrefl _)
  · rw [Prod.Lex.le_iff] at h
    rcases h with h | ⟨_, h⟩
    · exact absurd (hj ▸ h) (lt_irrefl _)
    · exact h

theorem rec_none_after {p q : FilteredPub} (h : pubOrd p q) (hp : p.publisher = q.publisher)
    (hj : p.journal = q.journal) (hr : p.normalized_received = none) :
    q.normalized_received = none := by
  have hd := pubOrd_desc h hp hj
  rw [Prod.Lex.le_iff] at hd
  rcases hd with hd | ⟨hd, _⟩
  · rw [hr] at hd
    cases hq : q.normalized_received with
    | none => rfl
    | some d =>
      rw [hq] at hd
      rw [dateKey, dateKey, Prod.Lex.lt_iff] at hd
      dsimp only at hd
      rcases hd with hd | ⟨hd, _⟩
      · exact absurd hd (by decide)
      · exact absurd hd (by decide)
  · rw [hr] at hd
    exact dateKey_none_le (le_of_eq hd)

theorem acc_none_after {p q : FilteredPub} (h : pubOrd p q) (hp : p.publisher = q.publisher)
    (hj : p.journal = q.journal) (hrr : p.normalized_received = q.normalized_received)
    (ha : p.normalized_accepted = none) :
    q.normalized_accepted = none := by
  have hd := pubOrd_desc h hp hj
  rw [Prod.Lex.le_iff] at hd
  rcases hd with hd | ⟨_, hd⟩
  · rw [hrr] at hd
    exact absurd hd (lt_irrefl _)
  · rw [ha] at hd
    exact dateKey_none_le hd

theorem pj_sandwich {p q r : FilteredPub} (h1 : pubOrd p q) (h2 : pubOrd q r)
    (hpr : samePJ p r) : samePJ p q := by
  rw [pubOrd, pubKey, pubKey] at h1 h2
  obtain ⟨hp, hj⟩ := hpr
  have hpub := lex_sandwich h1 h2 (congrArg String.data hp)
  obtain ⟨hpubeq, h1j⟩ := hpub
  have h2j : (toLex (q.journal.data,
      toLex (dateKey q.normalized_received, dateKey q.normalized_accepted)) :
        (List Char) ×ₗ ((Bool ×ₗ List Char) ×ₗ (Bool ×ₗ List Char))) ≤
      toLex (r.journal.data,
        toLex (dateKey r.normalized_received, dateKey r.normalized_accepted)) := by
    rw [Prod.Lex.le_iff] at h2
    rcases h2 with h2 | ⟨_, h2⟩
    · rw [hpubeq, congrArg String.data hp] at h2
      exact absurd h2 (lt_irrefl _)
    · exact h2
  have hjour := lex_sandwich h1j h2j (congrArg String.data hj)
  exact ⟨(string_data_inj hpubeq).symm, (string_data_inj hjour.1).symm⟩

/-- C5: for every search, the ordered result sequence is a permutation of
the filtered records, sorted ascending by (publisher, journal, received
date, accepted date); records sharing a publisher/journal are contiguous;
and within a publisher/journal group records with an absent received (resp.
accepted, at equal received) date come after records with a present one. -/
theorem C5_search_ordering (l : List FilteredPub) :
    (filter_pjt_order l).Perm l
    ∧ (filter_pjt_order l).Sorted pubOrd
    ∧ (∀ i j k : Fin (filter_pjt_order l).length, i ≤ j → j ≤ k →
        samePJ ((filter_pjt_order l).get i) ((filter_pjt_order l).get k) →
        samePJ ((filter_pjt_order l).get i) ((filter_pjt_order l).get j))
    ∧ (∀ i j : Fin (filter_pjt_order l).length, i ≤ j →
        samePJ ((filter_pjt_order l).get i) ((filter_pjt_order l).get j) →
        ((filter_pjt_order l).get i).normalized_received = none →
        ((filter_pjt_order l).get j).normalized_received = none)
    ∧ (∀ i j : Fin (filter_pjt_order l).length, i ≤ j →
        samePJ ((filter_pjt_order l).get i) ((filter_pjt_order l).get j) →
        ((filter_pjt_order l).get i).normalized_received
          = ((filter_pjt_order l).get j).normalized_received →
        ((filter_pjt_order l).get i).normalized_accepted = none →
        ((filter_pjt_order l).get j).normalized_accepted = none) := by
  have hs : (filter_pjt_order l).Sorted pubOrd := List.sorted_insertionSort pubOrd l
  have hrel : ∀ i j : Fin (filter_pjt_order l).length, i ≤ j →
      pubOrd ((filter_pjt_order l).get i) ((filter_pjt_order l).get j) := by
    intro i j hij
    rcases lt_or_eq_of_le hij with h | h
    · exact hs.rel_get_of_lt h
    · rw [h]
      exact le_refl (pubKey ((filter_pjt_order l).get j))
  refine ⟨List.perm_insertionSort pubOrd l, hs, ?_, ?_, ?_⟩
  · intro i j k hij hjk hik
    exact pj_sandwich (hrel i j hij) (hrel j k hjk) hik
  · intro i j hij hpj hr
    exact rec_none_after (hrel i j hij) hpj.1 hpj.2 hr
  · intro i j hij hpj hrr ha
    exact acc_none_after (hrel i j hij) hpj.1 hpj.2 hrr ha

/-- Witness for C5: a two-record group where the record with absent dates
sorts after the record with present dates. -/
theorem C5_search_ordering_witness :
    (filter_pjt_order [fpAbsent, fpPresent]).Perm [fpAbsent, fpPresent]
    ∧ (filter_pjt_order [fpAbsent, fpPresent]).Sorted pubOrd
    ∧ filter_pjt_order [fpAbsent, fpPresent] = [fpPresent, fpAbsent] := by
  obtain ⟨hperm, hsort, _⟩ := C5_search_ordering [fpAbsent, fpPresent]
  exact ⟨hperm, hsort, by decide⟩

theorem parseDates_err (l : List (List Char)) (e : PyErr) (h : parseDates l = .error e) :
    ∃ m, e = PyErr.valueError m := by
  induction l with
  | nil => exact absurd h (by simp [parseDates])
  | cons cs rest ih =>
    rw [parseDates] at h
    cases hfi : fromisoChars cs with
    | none =>
      simp only [hfi] at h
      injection h with h
      exact ⟨"Invalid isoformat string", h.symm⟩
    | some t =>
      simp only [hfi] at h
      cases hrest : parseDates rest with
      | ok ts =>
        simp only [hrest] at h
        exact Except.noConfusion h
      | error e2 =>
        simp only [hrest] at h
        injection h with h
        rw [h] at hrest
        exact ih hrest

theorem earliest_date_err (v : PyVal) (e : PyErr) (h : earliest_date v = .error e) :
    ∃ m, e = PyErr.valueError m := by
  rw [earliest_date] at h
  split at h
  · injection h with h
    exact ⟨"date_list must be a list of strings", h.symm⟩
  · split at h
    · rename_i e2 heq
      injection h with h
      exact h ▸ parseDates_err _ _ heq
    · injection h with h
      exact ⟨"min() arg is an empty sequence", h.symm⟩
    · exact Except.noConfusion h

theorem latest_date_err (v : PyVal) (e : PyErr) (h : latest_date v = .error e) :
    ∃ m, e = PyErr.valueError m := by
  rw [latest_date] at h
  split at h
  · injection h with h
    exact ⟨"date_list must be a list of strings", h.symm⟩
  · split at h
    · rename_i e2 heq
      injection h with h
      exact h ▸ parseDates_err _ _ heq
    · injection h with h
      exact ⟨"max() arg is an empty sequence", h.symm⟩
    · exact Except.noConfusion h

theorem is_list_of_str_optToPy (g : FilteredPub → Option String) (pubs : List FilteredPub) :
    is_list_of_str (PyVal.vlist (pubs.map fun p => optToPy (g p))) = true ↔
      ∀ p ∈ pubs, g p ≠ none := by
  rw [is_list_of_str, List.all_eq_true]
  constructor
  · intro h p hp hnone
    have hx := h (optToPy (g p)) (List.mem_map_of_mem _ hp)
    rw [hnone] at hx
    simp [optToPy] at hx
  · intro h v hv
    obtain ⟨p, hp, rfl⟩ := List.mem_map.mp hv
    cases hxv : g p with
    | none => exact absurd hxv (h p hp)
    | some s => simp [hxv, optToPy]

theorem earliest_ok_all_some (g : FilteredPub → Option String) (pubs : List FilteredPub)
    (s : String)
    (h : earliest_date (PyVal.vlist (pubs.map fun p => optToPy (g p))) = .ok s) :
    ∀ p ∈ pubs, g p ≠ none := by
  rw [earliest_date] at h
  split at h
  · exact Except.noConfusion h
  · rw [← is_list_of_str_optToPy g pubs]
    rename_i hl
    exact eq_true_of_ne_false hl

/-- C10: for every non-empty list of FilteredPub records in which some record
has an absent normalized received, accepted or published date,
basic_search_results raises a ValueError (the raw column list fails the
is_list_of_str check inside earliest_date/latest_date, whose failures are all
ValueErrors and precede the numpy averages); and a summary is returned only
when all three normalized dates are present on every record. -/
theorem C10_basic_search_results_absent_dates (pubs : List FilteredPub) :
    (pubs ≠ [] →
      (∃ p ∈ pubs, p.normalized_received = none ∨ p.normalized_accepted = none
        ∨ p.normalized_published = none) →
      ∃ m, basic_search_results pubs = Except.error (PyErr.valueError m))
    ∧ (∀ r, basic_search_results pubs = Except.ok (some r) →
        ∀ p ∈ pubs, p.normalized_received ≠ none ∧ p.normalized_accepted ≠ none
          ∧ p.normalized_published ≠ none) := by
  have key : pubs ≠ [] →
      (∃ p ∈ pubs, p.normalized_received = none ∨ p.normalized_accepted = none
        ∨ p.normalized_published = none) →
      ∃ m, basic_search_results pubs = Except.error (PyErr.valueError m) := by
    intro hne hex
    cases h1 : earliest_date (PyVal.vlist (pubs.map fun p => optToPy p.normalized_received)) with
    | error e =>
      obtain ⟨m, rfl⟩ := earliest_date_err _ _ h1
      exact ⟨m, by simp only [basic_search_results, if_neg hne, h1]⟩
    | ok s1 =>
      have hrec := earliest_ok_all_some (fun p => p.normalized_received) pubs s1 h1
      cases h2 : latest_date (PyVal.vlist (pubs.map fun p => optToPy p.normalized_received)) with
      | error e =>
        obtain ⟨m, rfl⟩ := latest_date_err _ _ h2
        exact ⟨m, by simp only [basic_search_results, if_neg hne, h1, h2]⟩
      | ok s2 =>
        cases h3 : earliest_date (PyVal.vlist (pubs.map fun p => optToPy p.normalized_accepted)) with
        | error e =>
          obtain ⟨m, rfl⟩ := earliest_date_err _ _ h3
          exact ⟨m, by simp only [basic_search_results, if_neg hne, h1, h2, h3]⟩
        | ok s3 =>
          have hacc := earliest_ok_all_some (fun p => p.normalized_accepted) pubs s3 h3
          cases h4 : latest_date (PyVal.vlist (pubs.map fun p => optToPy p.normalized_accepted)) with
          | error e =>
            obtain ⟨m, rfl⟩ := latest_date_err _ _ h4
            exact ⟨m, by simp only [basic_search_results, if_neg hne, h1, h2, h3, h4]⟩
          | ok s4 =>
            cases h5 : earliest_date (PyVal.vlist (pubs.map fun p => optToPy p.normalized_published)) with
            | error e =>
              obtain ⟨m, rfl⟩ := earliest_date_err _ _ h5
              exact ⟨m, by simp only [basic_search_results, if_neg hne, h1, h2, h3, h4, h5]⟩
            | ok s5 =>
              have hpub := earliest_ok_all_some (fun p => p.normalized_published) pubs s5 h5
              obtain ⟨p, hp, hcase⟩ := hex
              rcases hcase with hn | hn | hn
              · exact absurd hn (hrec p hp)
              · exact absurd hn (hacc p hp)
              · exact absurd hn (hpub p hp)
  refine ⟨key, ?_⟩
  intro r hok p hp
  have mk : (p.normalized_received = none ∨ p.normalized_accepted = none
      ∨ p.normalized_published = none) → False := by
    intro hdisj
    obtain ⟨m, hm⟩ := key (List.ne_nil_of_mem hp) ⟨p, hp, hdisj⟩
    rw [hok] at hm
    exact Except.noConfusion hm
  exact ⟨fun hn => (mk (Or.inl hn)).elim, fun hn => (mk (Or.inr (Or.inl hn))).elim,
    fun hn => (mk (Or.inr (Or.inr hn))).elim⟩

/-- Witness for C10: a single record with all dates absent makes
basic_search_results raise the is_list_of_str ValueError. -/
theorem C10_basic_search_results_absent_dates_witness :
    ([fpAbsent] : List FilteredPub) ≠ []
    ∧ (fpAbsent.normalized_received = none ∨ fpAbsent.normalized_accepted = none
        ∨ fpAbsent.normalized_published = none)
    ∧ (∃ m, basic_search_results [fpAbsent] = Except.error (PyErr.valueError m))
    ∧ basic_search_results [fpAbsent]
        = Except.error (PyErr.valueError "date_list must be a list of strings") := by
  refine ⟨by simp, Or.inl rfl, ?_, by decide⟩
  exact (C10_basic_search_results_absent_dates [fpAbsent]).1 (by simp)
    ⟨fpAbsent, List.mem_singleton.mpr rfl, Or.inl rfl⟩


theorem mem_dedupFirst {α : Type} [DecidableEq α] (x : α) (l : List α) :
    x ∈ dedupFirst l ↔ x ∈ l := by
  induction l with
  | nil => simp [dedupFirst]
  | cons y ys ih =>
    rw [dedupFirst]
    simp only [List.mem_cons, List.mem_filter]
    constructor
    · rintro (rfl | ⟨hmem, _⟩)
      · exact Or.inl rfl
      · exact Or.inr (ih.mp hmem)
    · rintro (rfl | hmem)
      · exact Or.inl rfl
      · by_cases hxy : x = y
        · exact Or.inl hxy
        · exact Or.inr ⟨ih.mpr hmem, by simpa using hxy⟩

theorem mem_unique_publishers (rows : List PubRow) (p : Option String) :
    p ∈ get_unique_publishers rows ↔ ∃ r ∈ rows, r.normalized_publisher = p := by
  rw [get_unique_publishers, (List.perm_insertionSort sqlLe _).mem_iff, mem_dedupFirst,
    List.mem_map]

theorem mem_sorted_journals (rows : List PubRow) (publisher : String) (j : Option String) :
    j ∈ List.insertionSort sqlLe (dedupFirst
        ((rows.filter fun r => decide (r.normalized_publisher = some publisher)).map
          fun r => r.normalized_journal)) ↔
      ∃ r ∈ rows, r.normalized_publisher = some publisher ∧ r.normalized_journal = j := by
  rw [(List.perm_insertionSort sqlLe _).mem_iff, mem_dedupFirst, List.mem_map]
  constructor
  · rintro ⟨r, hr, rfl⟩
    rw [List.mem_filter] at hr
    exact ⟨r, hr.1, by simpa using hr.2, rfl⟩
  · rintro ⟨r, hr, hpr, rfl⟩
    exact ⟨r, List.mem_filter.mpr ⟨hr, by simp [hpr]⟩, rfl⟩

/-- C9: get_publisher_summary is None exactly when the requested publisher
has no row, and otherwise yields a non-empty list of aggregates (never an
empty aggregate row); get_journal_summary is None exactly when no row
carries the requested (publisher, journal) pair — the existence checks
precede the aggregate queries. -/
theorem C9_summary_none_signals (rows : List PubRow) (publisher journal : String) :
    (get_publisher_summary rows publisher = none ↔
      ¬ ∃ r ∈ rows, r.normalized_publisher = some publisher)
    ∧ (∀ ls, get_publisher_summary rows publisher = some ls → ls ≠ [])
    ∧ (get_journal_summary rows publisher journal = none ↔
      ¬ ∃ r ∈ rows, r.normalized_publisher = some publisher
        ∧ r.normalized_journal = some journal) := by
  refine ⟨?_, ?_, ?_⟩
  · rw [get_publisher_summary]
    by_cases hp : some publisher ∈ get_unique_publishers rows
    · rw [if_pos hp]
      exact iff_of_false (by simp)
        (fun hno => hno ((mem_unique_publishers rows _).mp hp))
    · rw [if_neg hp]
      exact iff_of_true rfl (fun hex => hp ((mem_unique_publishers rows _).mpr hex))
  · intro ls hls hnil
    rw [get_publisher_summary] at hls
    split at hls
    · rename_i hp
      injection hls with hls
      rw [hnil] at hls
      have hsortnil := List.map_eq_nil_iff.mp hls
      obtain ⟨r, hr, hpr⟩ := (mem_unique_publishers rows _).mp hp
      have hmem1 : r.normalized_journal ∈
          (rows.filter fun r => decide (r.normalized_publisher = some publisher)).map
            (fun r => r.normalized_journal) :=
        List.mem_map_of_mem _ (List.mem_filter.mpr ⟨hr, by simp [hpr]⟩)
      have hmem2 := ((List.perm_insertionSort sqlLe _).mem_iff).mpr
        ((mem_dedupFirst _ _).mpr hmem1)
      rw [hsortnil] at hmem2
      exact absurd hmem2 (List.not_mem_nil _)
    · exact Option.noConfusion hls
  · rw [get_journal_summary]
    by_cases hp : some publisher ∈ get_unique_publishers rows
    · rw [if_pos hp]
      have huj : get_unique_journals rows publisher = some (List.insertionSort sqlLe (dedupFirst
          ((rows.filter fun r => decide (r.normalized_publisher = some publisher)).map
            fun r => r.normalized_journal))) := by
        rw [get_unique_journals, if_pos hp]
      simp only [huj]
      by_cases hj : some journal ∈ List.insertionSort sqlLe (dedupFirst
          ((rows.filter fun r => decide (r.normalized_publisher = some publisher)).map
            fun r => r.normalized_journal))
      · rw [if_pos hj]
        exact iff_of_false (by simp)
          (fun hno => hno ((mem_sorted_journals rows publisher _).mp hj))
      · rw [if_neg hj]
        exact iff_of_true rfl
          (fun hex => hj ((mem_sorted_journals rows publisher _).mpr hex))
    · rw [if_neg hp]
      exact iff_of_true rfl
        (fun hex => hp ((mem_unique_publishers rows _).mpr
          (hex.elim fun r hr => ⟨r, hr.1, hr.2.1⟩)))

/-- Witness for C9: a one-row table; an unknown publisher and an unknown
journal give None, the present publisher does not. -/
theorem C9_summary_none_signals_witness :
    (¬ ∃ r ∈ [rowDemo], r.normalized_publisher = some "Wiley")
    ∧ get_publisher_summary [rowDemo] "Wiley" = none
    ∧ get_journal_summary [rowDemo] "ACS" "Nature" = none
    ∧ get_publisher_summary [rowDemo] "ACS" ≠ none := by
  refine ⟨by decide, ?_, ?_, ?_⟩
  · exact (C9_summary_none_signals [rowDemo] "Wiley" "JACS").1.mpr (by decide)
  · exact (C9_summary_none_signals [rowDemo] "ACS" "Nature").2.2.mpr (by decide)
  · intro hnone
    exact ((C9_summary_none_signals [rowDemo] "ACS" "JACS").1.mp hnone) (by decide)
